import Mathlib

/-!
# Verification of the Cruise_Logs persistence mapper

Shallow embedding of the schema-adaptive persistence logic of the
three data-entry applications (`dep_form_JSON.py`, `rec_form_JSON.py`,
`repair_form_JSON.py`) together with proofs and refutations of the
frozen specification claims.

Conventions used throughout the embedding:

* Python strings appearing in value positions are Lean `String`s; the
  character-level codecs (clock error, coordinates, serial numbers)
  work on `List Char`, the standard list representation of a Python
  string, so that splitting/parsing admits inductive proofs.
* Python `float` is modelled as `ℚ` (exact rational arithmetic);
  theorems whose truth could be affected by IEEE-754 rounding carry an
  explicit size bound confining them to the exactly-representable
  range.
* SQLite `NULL` is modelled as the absence of a cell binding (the
  `Option` none at lookup time); a stored Python `None` is likewise
  read back as `NULL`.
* A fallible Python function (one that raises) returns an `Option` or
  an explicit result constructor.
-/

/-- A raw Python value as it flows out of the form layer:
the `None` sentinel, a floating NaN, an integer, a float, a string,
or a boolean.  Mirrors the dynamic typing of `form_data` values. -/
inductive PyVal where
  | pynone : PyVal
  | pynan : PyVal
  | vint : Int → PyVal
  | vfloat : Rat → PyVal
  | vstr : String → PyVal
  | vbool : Bool → PyVal
deriving DecidableEq, Repr

/-- Python truthiness (`if value:`), the check actually used by the
staging loops of `update_recovery_data` (rec_form_JSON.py:516).
`None` is falsy, NaN is truthy, numbers are truthy iff nonzero,
strings are truthy iff nonempty, booleans are themselves. -/
def pyTruthy : PyVal → Bool
  | .pynone => false
  | .pynan => true
  | .vint n => n != 0
  | .vfloat q => q != 0
  | .vstr s => s ≠ ""
  | .vbool b => b

/-- Python `str.strip()` (and the whitespace trimming of the spec's
presence rule): remove leading and trailing whitespace characters. -/
def pyStrip (s : String) : String :=
  (((s.toList.dropWhile Char.isWhitespace).reverse.dropWhile
      Char.isWhitespace).reverse).asString

/-- Modelled from the spec: the presence predicate of §4.2 ("a raw
value counts as present iff it is not the null/missing sentinel, not
a floating-point NaN, and — after trimming whitespace for strings —
not an empty string").  This definition follows the specification
wording; it exists to be compared against the truthiness check the
code performs. -/
def specPresent : PyVal → Bool
  | .pynone => false
  | .pynan => false
  | .vint _ => true
  | .vfloat _ => true
  | .vstr s => pyStrip s ≠ ""
  | .vbool _ => true

/-- `form_data.get(field, '')`: look a field up in the flat form
mapping, defaulting to the empty string. -/
def formGet (form : List (String × PyVal)) (k : String) : PyVal :=
  match form.find? (fun p => p.1 == k) with
  | some p => p.2
  | none => .vstr ""

/-- Dictionary assignment `d[k] = v` on an association list: replace
the first binding of `k`, or append a fresh one. -/
def dictSet (l : List (String × PyVal)) (k : String) (v : PyVal) :
    List (String × PyVal) :=
  match l with
  | [] => [(k, v)]
  | (k', v') :: rest =>
      if k' == k then (k, v) :: rest else (k', v') :: dictSet rest k v

/-- The field-resolution loop of `update_recovery_data`
(rec_form_JSON.py:517-520): scan the priority-ordered candidate list
and take the first candidate that is among the introspected columns;
the loop body has no fallback, so no candidate available means no
resolution. -/
def resolveColumn (candidates : List String) (available : List String) :
    Option String :=
  candidates.find? (fun c => available.contains c)

/-- `basic_field_mappings` of `update_recovery_data`
(rec_form_JSON.py:492 region, exact contents of the dict literal). -/
def basic_field_mappings : List (String × List String) :=
  [("site", ["site"]),
   ("mooringid", ["mooring_id", "mooringid"]),
   ("cruise", ["cruise"]),
   ("mooring_status", ["statuspriortodeparture"]),
   ("mooring_type", ["mooring_type"]),
   ("personnel", ["personnel"]),
   ("touch_time", ["touch_time"])]

/-- `release_info_mappings` of `update_recovery_data`. -/
def release_info_mappings : List (String × List String) :=
  [("release_latitude", ["relfirelat"]),
   ("release_longitude", ["relfirelong"]),
   ("fire_time", ["relfiretime"]),
   ("fire_date", ["relfiredate"]),
   ("time_on_deck", ["relon_decktime"]),
   ("date_on_deck", ["dateondeck"])]

/-- One staging loop of `update_recovery_data`
(rec_form_JSON.py:513-520 and 523-530): for each logical field, read
the form value with `''` default, and only when the value is truthy
(`if value:`) assign it to the first resolvable candidate column. -/
def stageMappings (form : List (String × PyVal)) (avail : List String)
    (mappings : List (String × List String))
    (acc : List (String × PyVal)) : List (String × PyVal) :=
  mappings.foldl
    (fun acc fm =>
      let value := formGet form fm.1
      if pyTruthy value then
        match resolveColumn fm.2 avail with
        | some col => dictSet acc col value
        | none => acc
      else acc)
    acc

/-- The scalar write-set builder of `update_recovery_data`: the basic
loop followed by the release-info loop, starting from the empty
`db_data` dict.  The source records nothing when a field fails to
resolve (the inner loop has no else branch and no logging call), so
the list of schema-mismatch diagnostics emitted by a run is the
constant `[]`; it is exposed here so that statements about recorded
diagnostics can be made. -/
def update_recovery_stage (form : List (String × PyVal))
    (avail : List String) : List (String × PyVal) × List String :=
  (stageMappings form avail release_info_mappings
    (stageMappings form avail basic_field_mappings []), [])

/-! ## Relational state model

A table row carries its integer primary key and a list of cell
bindings; an unbound column, or a cell holding Python `None`, reads
back as SQL `NULL`. -/

/-- A row of a SQLite table: the `id` primary key plus cell bindings. -/
structure Row where
  id : Nat
  cells : List (String × PyVal)
deriving DecidableEq, Repr

/-- Replace-or-append assignment for cells. -/
def setCells (l : List (String × PyVal)) (c : String) (v : PyVal) :
    List (String × PyVal) :=
  match l with
  | [] => [(c, v)]
  | (c', v') :: rest =>
      if c' == c then (c, v) :: rest else (c', v') :: setCells rest c v

/-- Read a column of a row.  An absent binding and a stored `None`
both read as SQL `NULL` (`none`). -/
def Row.get (r : Row) (c : String) : Option PyVal :=
  match r.cells.find? (fun p => p.1 == c) with
  | some (_, .pynone) => none
  | some (_, v) => some v
  | none => none

/-- `UPDATE ... SET c = v` on one row. -/
def Row.set (r : Row) (c : String) (v : PyVal) : Row :=
  ⟨r.id, setCells r.cells c v⟩

/-- A table: its live column set and its rows. -/
structure Table where
  cols : List String
  rows : List Row
deriving DecidableEq, Repr

/-- Apply a staged write-set to one row, in order. -/
def applyWrites (r : Row) (ws : List (String × PyVal)) : Row :=
  ws.foldl (fun acc p => acc.set p.1 p.2) r

/-- `UPDATE t SET <ws> WHERE id = rid`: returns the updated table and
the affected-row count (SQLite `cursor.rowcount`, the number of rows
matched by the WHERE clause). -/
def sqlUpdate (t : Table) (rid : Nat) (ws : List (String × PyVal)) :
    Table × Nat :=
  ({ t with rows := t.rows.map (fun r => if r.id == rid then applyWrites r ws else r) },
   (t.rows.filter (fun r => r.id == rid)).length)

/-- Outcome of an update attempt; the constructors correspond one to
one to the return branches of the source functions (their
human-readable message strings are abstracted to the branch
identity). -/
inductive UpdateOutcome where
  | noMatchingColumns
  | notFound
  | noRowsUpdated
  | ambiguous (n : Nat)
  | verifyFailed
  | ok
deriving DecidableEq, Repr

/-- `update_recovery_data` (rec_form_JSON.py:415-908), restricted to
the scalar mapping loops modelled by `update_recovery_stage`:
introspect the columns, build the write-set, bail out early when it
is empty, verify the row exists (rollback and report not-found when
it does not); then execute the UPDATE inside the transaction,
rolling back when the affected-row count is 0 or exceeds 1,
committing and re-reading the row for confirmation otherwise.
The id-as-string retry of the source is dropped because ids are
already numeric here.  Returns the outcome and the table as left by
commit/rollback. -/
def update_recovery_data (t : Table) (rid : Nat)
    (form : List (String × PyVal)) : UpdateOutcome × Table :=
  let avail := t.cols
  let db_data := (update_recovery_stage form avail).1
  if db_data.isEmpty then (.noMatchingColumns, t)
  else
    match t.rows.find? (fun r => r.id == rid) with
    | none => (.notFound, t)
    | some _ =>
      let res := sqlUpdate t rid db_data
      if res.2 == 0 then (.noRowsUpdated, t)
      else if res.2 > 1 then (.ambiguous res.2, t)
      else
        match res.1.rows.find? (fun r => r.id == rid) with
        | some _ => (.ok, res.1)
        | none => (.verifyFailed, res.1)

/-- `save_repair` in update mode (repair_form_JSON.py:382-420):
builds `UPDATE repair_normalized SET <fields>, updated_at =
CURRENT_TIMESTAMP WHERE id = ?`, executes it and commits
unconditionally — the affected-row count is never inspected, there is
no existence pre-check, and the function reports success regardless
of how many rows matched.  The `updated_at` timestamp is passed in
explicitly. -/
def save_repair_update (t : Table) (rid : Nat)
    (repair_data : List (String × PyVal)) (now : PyVal) :
    (Bool × String) × Table :=
  let ws := repair_data.filter (fun p => p.1 != "id") ++ [("updated_at", now)]
  let res := sqlUpdate t rid ws
  ((true, "Repair record updated successfully!"), res.1)

/-- The fixed column list of the `UPDATE deployments_normalized SET ...`
statement of `update_deployment_data` (dep_form_JSON.py:669-678),
paired with the staged value of each column.  The scalar columns take
`form_data.get(..., '')` — the empty-string default is staged even
when the form value is absent — and the ten JSON sub-document columns
take the serialized payloads built earlier in the function, passed
here as already-serialized strings. -/
def dep_update_writes (form : List (String × PyVal))
    (payloads : List String) : List (String × PyVal) :=
  [("site", formGet form "site"),
   ("mooringid", formGet form "mooringid"),
   ("cruise", formGet form "cruise"),
   ("latitude", formGet form "anchor_drp_lat"),
   ("longitude", formGet form "anchor_drp_long"),
   ("depth", formGet form "depth")] ++
  (["deployment_info", "met_sensors", "hardware", "nylon_spools",
    "nylon_config", "subsurface_sensors", "acoustic_releases",
    "anchor_drop", "met_obs", "flyby"].zip (payloads.map PyVal.vstr))

/-- `update_deployment_data` (dep_form_JSON.py:668-709): verify the
target row exists (without rollback — nothing was written), then run
the UPDATE staging every fixed column, assert the affected-row count
(0 rolls back as not-found, more than 1 rolls back as ambiguous), and
commit.  `updated_at = CURRENT_TIMESTAMP` is staged with the rest. -/
def update_deployment_data (t : Table) (did : Nat)
    (form : List (String × PyVal)) (payloads : List String)
    (now : PyVal) : UpdateOutcome × Table :=
  match t.rows.find? (fun r => r.id == did) with
  | none => (.notFound, t)
  | some _ =>
    let ws := dep_update_writes form payloads ++ [("updated_at", now)]
    let res := sqlUpdate t did ws
    if res.2 == 0 then (.noRowsUpdated, t)
    else if res.2 > 1 then (.ambiguous res.2, t)
    else (.ok, res.1)

/-! ## Basic lemmas about the state model -/

theorem mem_dictSet {l : List (String × PyVal)} {k : String} {v : PyVal}
    {p : String × PyVal} (h : p ∈ dictSet l k v) : p = (k, v) ∨ p ∈ l := by
  induction l with
  | nil =>
    simp [dictSet] at h
    exact Or.inl h
  | cons a rest ih =>
    simp only [dictSet] at h
    by_cases hk : a.1 == k
    · rcases a with ⟨a1, a2⟩
      simp [hk] at h
      rcases h with h | h
      · exact Or.inl (by simp [h])
      · exact Or.inr (List.mem_cons_of_mem _ h)
    · rcases a with ⟨a1, a2⟩
      simp [hk] at h
      rcases h with h | h
      · exact Or.inr (by simp [h])
      · rcases ih h with h' | h'
        · exact Or.inl h'
        · exact Or.inr (List.mem_cons_of_mem _ h')

theorem resolveColumn_mem {cands avail : List String} {c : String}
    (h : resolveColumn cands avail = some c) : avail.contains c := by
  have := List.find?_some h
  exact this

theorem stageMappings_mem {form : List (String × PyVal)}
    {avail : List String} {mappings : List (String × List String)}
    {acc : List (String × PyVal)} {p : String × PyVal}
    (h : p ∈ stageMappings form avail mappings acc) :
    p ∈ acc ∨ (avail.contains p.1 ∧ pyTruthy p.2) := by
  induction mappings generalizing acc with
  | nil => exact Or.inl h
  | cons fm rest ih =>
    simp only [stageMappings, List.foldl_cons] at h
    rcases ih h with h' | h'
    · by_cases ht : pyTruthy (formGet form fm.1)
      · simp only [ht, if_pos] at h'
        cases hr : resolveColumn fm.2 avail with
        | none => rw [hr] at h'; exact Or.inl h'
        | some col =>
          rw [hr] at h'
          rcases mem_dictSet h' with h'' | h''
          · subst h''
            exact Or.inr ⟨resolveColumn_mem hr, ht⟩
          · exact Or.inl h''
      · simp only [ht] at h'
        simp at h'
        exact Or.inl h'
    · exact Or.inr h'

theorem map_eq_self_of {α : Type} {l : List α} {f : α → α}
    (h : ∀ a ∈ l, f a = a) : l.map f = l := by
  induction l with
  | nil => rfl
  | cons a rest ih =>
    simp only [List.map_cons]
    rw [h a (List.mem_cons_self _ _), ih (fun x hx => h x (List.mem_cons_of_mem _ hx))]

theorem find_setCells_ne {l : List (String × PyVal)} {c c' : String}
    {v : PyVal} (h : c' ≠ c) :
    (setCells l c' v).find? (fun p => p.1 == c) =
      l.find? (fun p => p.1 == c) := by
  have hcc : (c' == c) = false := by simpa using h
  induction l with
  | nil => simp [setCells, List.find?, hcc]
  | cons a rest ih =>
    rcases a with ⟨a1, a2⟩
    by_cases ha : a1 = c'
    · have hb : (a1 == c') = true := by simpa using ha
      have hac : (a1 == c) = false := by
        subst ha
        exact hcc
      simp [setCells, hb, List.find?, hcc, hac]
    · have hb : (a1 == c') = false := by simpa using ha
      by_cases hac : a1 = c
      · subst hac
        simp [setCells, hb, List.find?]
      · have hacb : (a1 == c) = false := by simpa using hac
        simp [setCells, hb, List.find?, hacb, ih]

theorem Row.get_set_ne {r : Row} {c c' : String} {v : PyVal}
    (h : c' ≠ c) : (r.set c' v).get c = r.get c := by
  unfold Row.get Row.set
  simp only
  rw [find_setCells_ne h]

theorem Row.id_set (r : Row) (c : String) (v : PyVal) :
    (r.set c v).id = r.id := rfl

theorem find_setCells_self {l : List (String × PyVal)} {c : String}
    {v : PyVal} :
    (setCells l c v).find? (fun p => p.1 == c) = some (c, v) := by
  induction l with
  | nil => simp [setCells, List.find?]
  | cons a rest ih =>
    rcases a with ⟨a1, a2⟩
    by_cases ha : a1 = c
    · have hb : (a1 == c) = true := by simpa using ha
      simp [setCells, hb, List.find?]
    · have hb : (a1 == c) = false := by simpa using ha
      simp [setCells, hb, List.find?, ih]

theorem Row.get_set_self {r : Row} {c : String} {v : PyVal}
    (h : v ≠ .pynone) : (r.set c v).get c = some v := by
  unfold Row.get Row.set
  simp only
  rw [find_setCells_self]
  cases v with
  | pynone => exact absurd rfl h
  | pynan => rfl
  | vint n => rfl
  | vfloat q => rfl
  | vstr s => rfl
  | vbool b => rfl

theorem applyWrites_get_notMem {r : Row} {ws : List (String × PyVal)}
    {c : String} (h : ∀ v, (c, v) ∉ ws) :
    (applyWrites r ws).get c = r.get c := by
  induction ws generalizing r with
  | nil => rfl
  | cons p rest ih =>
    rcases p with ⟨c', v'⟩
    have hne : c' ≠ c := by
      intro he
      subst he
      exact h v' (List.mem_cons_self _ _)
    simp only [applyWrites, List.foldl_cons]
    have := ih (r := r.set c' v') (fun v hv => h v (List.mem_cons_of_mem _ hv))
    unfold applyWrites at this
    rw [this, Row.get_set_ne hne]

theorem applyWrites_id (r : Row) (ws : List (String × PyVal)) :
    (applyWrites r ws).id = r.id := by
  induction ws generalizing r with
  | nil => rfl
  | cons p rest ih =>
    simp only [applyWrites, List.foldl_cons]
    have := ih (r := r.set p.1 p.2)
    unfold applyWrites at this
    rw [this, Row.id_set]

/-- If no row carries the target id, the UPDATE matches nothing:
the table is unchanged and the rowcount is zero. -/
theorem sqlUpdate_no_match (t : Table) (rid : Nat)
    (ws : List (String × PyVal)) (h : ∀ r ∈ t.rows, r.id ≠ rid) :
    sqlUpdate t rid ws = (t, 0) := by
  unfold sqlUpdate
  have hmap : t.rows.map
      (fun r => if r.id == rid then applyWrites r ws else r) = t.rows := by
    apply map_eq_self_of
    intro r hr
    have : (r.id == rid) = false := by simpa using h r hr
    simp [this]
  have hfilter : t.rows.filter (fun r => r.id == rid) = [] := by
    apply List.filter_eq_nil_iff.mpr
    intro r hr
    simpa using h r hr
  rw [hmap, hfilter]
  rfl

theorem map_congr_of {α β : Type} {l : List α} {f g : α → β}
    (h : ∀ a ∈ l, f a = g a) : l.map f = l.map g := by
  induction l with
  | nil => rfl
  | cons a rest ih =>
    simp only [List.map_cons]
    rw [h a (List.mem_cons_self _ _), ih (fun x hx => h x (List.mem_cons_of_mem _ hx))]

theorem resolveColumn_eq_some {cands avail : List String} {c : String}
    (h : resolveColumn cands avail = some c) :
    ∃ l1 l2, cands = l1 ++ c :: l2 ∧ avail.contains c = true ∧
      ∀ x ∈ l1, avail.contains x = false := by
  induction cands with
  | nil => simp [resolveColumn] at h
  | cons a rest ih =>
    by_cases ha : avail.contains a
    · have hd : (fun c => avail.contains c) a = true := ha
      have : resolveColumn (a :: rest) avail = some a := by
        unfold resolveColumn
        rw [List.find?_cons_of_pos _ hd]
      rw [this] at h
      cases h
      exact ⟨[], rest, rfl, ha, by simp⟩
    · have hd : ¬ (fun c => avail.contains c) a = true := ha
      have hstep : resolveColumn (a :: rest) avail = resolveColumn rest avail := by
        unfold resolveColumn
        rw [List.find?_cons_of_neg _ hd]
      rw [hstep] at h
      rcases ih h with ⟨l1, l2, hc, hcc, hall⟩
      refine ⟨a :: l1, l2, by rw [hc]; rfl, hcc, ?_⟩
      intro x hx
      rcases List.mem_cons.mp hx with hx | hx
      · subst hx; simpa using ha
      · exact hall x hx

/-- Claim C6 (amended): the field resolver returns the first candidate
column present in the introspected set, and returns nothing when no
candidate is available — never defaulting to the first candidate and
never throwing, with the field simply skipped (no assignment staged);
however, contrary to the original claim, the miss is NOT recorded as
a SchemaMismatch diagnostic: the staging loop records nothing, so the
diagnostics emitted by a run are always empty. -/
theorem C6_field_resolution_first_match :
    (∀ (cands avail : List String) (c : String),
        resolveColumn cands avail = some c →
        ∃ l1 l2, cands = l1 ++ c :: l2 ∧ avail.contains c = true ∧
          ∀ x ∈ l1, avail.contains x = false) ∧
    (∀ cands avail : List String,
        (∀ x ∈ cands, avail.contains x = false) →
        resolveColumn cands avail = none) ∧
    resolveColumn ["A", "B"] ["B"] = some "B" ∧
    resolveColumn ["A", "B"] [] = none ∧
    (update_recovery_stage [("site", PyVal.vstr "X")] []).1 = [] ∧
    (update_recovery_stage [("site", PyVal.vstr "X")] []).2 = [] := by
  refine ⟨fun cands avail c h => resolveColumn_eq_some h, ?_, rfl, rfl, rfl, rfl⟩
  intro cands avail h
  refine List.find?_eq_none.mpr (fun x hx => ?_)
  simp only [h x hx]
  exact Bool.false_ne_true

theorem C6_field_resolution_first_match_witness :
    ∃ l1 l2, ["A", "B"] = l1 ++ "B" :: l2 ∧
      (["B"] : List String).contains "B" = true ∧
      ∀ x ∈ l1, (["B"] : List String).contains x = false :=
  C6_field_resolution_first_match.1 ["A", "B"] ["B"] "B" rfl

/-- Counterexample to claim C6 as stated: on a run where the logical
field `site` (candidate list `["site"]`) fails to resolve against an
empty available-column set, the resolver indeed returns nothing and
the field is skipped, but the set of diagnostics recorded by the run
is empty — no SchemaMismatch diagnostic is recorded anywhere in
`update_recovery_data`, refuting the final conjunct of the claim. -/
theorem C6_counterexample_no_diagnostic_recorded :
    resolveColumn ["site"] [] = none ∧
    (update_recovery_stage [("site", PyVal.vstr "X")] []).1 = [] ∧
    (update_recovery_stage [("site", PyVal.vstr "X")] []).2 = [] :=
  ⟨rfl, rfl, rfl⟩

/-- Claim C1: the persistence layer is claimed to treat a raw value
as present iff it is not None, not NaN and not (after trimming) an
empty string, making numeric `0` present and `"   "` absent.  The
staging loop of `update_recovery_data` instead uses Python truthiness
(`if value:`), which contradicts the claimed predicate — exactly the
defect the specification itself flags as the confirmed import bug.
Evaluating the code at the failing inputs: numeric `0` is dropped
from the write-set although the predicate marks it present, while the
all-whitespace string and NaN are staged although the predicate marks
them absent. -/
theorem C1_presence_predicate_code_bug :
    (update_recovery_stage [("site", PyVal.vint 0)] ["site"]).1 = [] ∧
    specPresent (PyVal.vint 0) = true ∧
    (update_recovery_stage [("site", PyVal.vstr "   ")] ["site"]).1
      = [("site", PyVal.vstr "   ")] ∧
    specPresent (PyVal.vstr "   ") = false ∧
    (update_recovery_stage [("site", PyVal.pynan)] ["site"]).1
      = [("site", PyVal.pynan)] ∧
    specPresent PyVal.pynan = false := by
  refine ⟨rfl, rfl, rfl, ?_, rfl, rfl⟩
  decide

/-- Counterexample to claim C2 as stated: the repair-form updater
performs no cardinality assertion.  Updating id 1 of an empty
`repair_normalized` table reports success ("Repair record updated
successfully!") although zero rows were affected, where the claim
requires a NotFound failure result.  (The table contents are indeed
unchanged.) -/
theorem C2_counterexample_save_repair_success_on_zero_rows :
    save_repair_update ⟨["site"], []⟩ 1 [("site", PyVal.vstr "X")]
        (PyVal.vstr "2024-01-01") =
      ((true, "Repair record updated successfully!"), ⟨["site"], []⟩) := rfl

/-- Claim C2 (amended): the recovery and deployment updaters assert
the affected-row count before committing — updating a non-existent id
fails without committing and leaves the table unchanged, and a count
greater than one rolls back with an ambiguous-update failure, leaving
the table unchanged.  The repair updater, however, performs no
cardinality assertion: it commits unconditionally and reports success
even when zero rows match, though a missing id still leaves the table
contents unchanged. -/
theorem C2_rowcount_assertion :
    (∀ (t : Table) (rid : Nat) (form : List (String × PyVal)),
        (∀ r ∈ t.rows, r.id ≠ rid) →
        (update_recovery_data t rid form).1 ≠ UpdateOutcome.ok ∧
        (update_recovery_data t rid form).2 = t) ∧
    (∀ (t : Table) (rid : Nat) (form : List (String × PyVal)),
        1 < (t.rows.filter (fun r => r.id == rid)).length →
        (update_recovery_data t rid form).2 = t ∧
        ((update_recovery_data t rid form).1 =
            UpdateOutcome.ambiguous
              (t.rows.filter (fun r => r.id == rid)).length ∨
          (update_recovery_data t rid form).1 =
            UpdateOutcome.noMatchingColumns)) ∧
    (∀ (t : Table) (did : Nat) (form : List (String × PyVal))
        (payloads : List String) (now : PyVal),
        (∀ r ∈ t.rows, r.id ≠ did) →
        update_deployment_data t did form payloads now =
          (UpdateOutcome.notFound, t)) ∧
    (∀ (t : Table) (did : Nat) (form : List (String × PyVal))
        (payloads : List String) (now : PyVal),
        1 < (t.rows.filter (fun r => r.id == did)).length →
        update_deployment_data t did form payloads now =
          (UpdateOutcome.ambiguous
            (t.rows.filter (fun r => r.id == did)).length, t)) ∧
    (∀ (t : Table) (rid : Nat) (data : List (String × PyVal))
        (now : PyVal),
        (∀ r ∈ t.rows, r.id ≠ rid) →
        (save_repair_update t rid data now).1.1 = true ∧
        (save_repair_update t rid data now).2 = t) := by
  have hfindnone : ∀ (t : Table) (rid : Nat), (∀ r ∈ t.rows, r.id ≠ rid) →
      t.rows.find? (fun r => r.id == rid) = none := by
    intro t rid h
    refine List.find?_eq_none.mpr (fun r hr => ?_)
    simpa using h r hr
  have hfindsome : ∀ (t : Table) (rid : Nat),
      1 < (t.rows.filter (fun r => r.id == rid)).length →
      ∃ r, t.rows.find? (fun r => r.id == rid) = some r := by
    intro t rid h
    cases hf : t.rows.find? (fun r => r.id == rid) with
    | some r => exact ⟨r, rfl⟩
    | none =>
      exfalso
      have hall := List.find?_eq_none.mp hf
      have : t.rows.filter (fun r => r.id == rid) = [] :=
        List.filter_eq_nil_iff.mpr hall
      rw [this] at h
      simp at h
  refine ⟨?_, ?_, ?_, ?_, ?_⟩
  · intro t rid form h
    unfold update_recovery_data
    by_cases hd : ((update_recovery_stage form t.cols).1).isEmpty
    · simp [hd]
    · simp [hd, hfindnone t rid h]
  · intro t rid form h
    unfold update_recovery_data
    by_cases hd : ((update_recovery_stage form t.cols).1).isEmpty
    · simp [hd]
    · rcases hfindsome t rid h with ⟨r, hf⟩
      have h0 : ((t.rows.filter (fun r => r.id == rid)).length == 0) = false := by
        simp only [beq_eq_false_iff_ne]
        omega
      simp only [hd, Bool.false_eq_true, if_false, hf, sqlUpdate, h0]
      rw [if_pos (show (t.rows.filter (fun r => r.id == rid)).length > 1 from h)]
      exact ⟨rfl, Or.inl rfl⟩
  · intro t did form payloads now h
    unfold update_deployment_data
    rw [hfindnone t did h]
  · intro t did form payloads now h
    unfold update_deployment_data
    rcases hfindsome t did h with ⟨r, hf⟩
    have h0 : ((t.rows.filter (fun r => r.id == did)).length == 0) = false := by
      simp only [beq_eq_false_iff_ne]
      omega
    simp only [hf, sqlUpdate, h0, Bool.false_eq_true, if_false]
    rw [if_pos (show (t.rows.filter (fun r => r.id == did)).length > 1 from h)]
  · intro t rid data now h
    unfold save_repair_update
    have hsu := sqlUpdate_no_match t rid
      (data.filter (fun p => p.1 != "id") ++ [("updated_at", now)]) h
    simp [hsu]

theorem C2_rowcount_assertion_witness :
    ((∀ r ∈ (⟨["site"], []⟩ : Table).rows, r.id ≠ 1) ∧
      (update_recovery_data ⟨["site"], []⟩ 1
          [("site", PyVal.vstr "X")]).1 ≠ UpdateOutcome.ok ∧
      (update_recovery_data ⟨["site"], []⟩ 1
          [("site", PyVal.vstr "X")]).2 = ⟨["site"], []⟩) ∧
    ((save_repair_update ⟨["site"], []⟩ 1 [("site", PyVal.vstr "X")]
        (PyVal.vstr "ts")).1.1 = true ∧
      (save_repair_update ⟨["site"], []⟩ 1 [("site", PyVal.vstr "X")]
        (PyVal.vstr "ts")).2 = ⟨["site"], []⟩) :=
  ⟨⟨by simp, C2_rowcount_assertion.1 ⟨["site"], []⟩ 1 [("site", PyVal.vstr "X")]
      (by simp)⟩,
   C2_rowcount_assertion.2.2.2.2 ⟨["site"], []⟩ 1 [("site", PyVal.vstr "X")]
      (PyVal.vstr "ts") (by simp)⟩

theorem sqlUpdate_proj (t : Table) (rid : Nat) (ws : List (String × PyVal))
    (c : String) (h : ∀ v, (c, v) ∉ ws) :
    ((sqlUpdate t rid ws).1).rows.map (fun r => r.get c) =
      t.rows.map (fun r => r.get c) := by
  unfold sqlUpdate
  simp only
  rw [List.map_map]
  apply map_congr_of
  intro r hr
  simp only [Function.comp]
  by_cases hid : (r.id == rid) = true
  · simp only [hid, if_true]
    exact applyWrites_get_notMem h
  · simp only [hid, Bool.false_eq_true, if_false]

/-- Counterexample to claim C3 as stated: the deployment updater does
not build its write-set from present values only — it stages its
fixed column list with `form_data.get(..., '')` defaults.  Updating a
row whose `site` column holds `"OLD"` with a form in which the `site`
value is absent overwrites the previously persisted value with the
empty string, so a column whose corresponding form value is absent
does NOT keep its previous value. -/
theorem C3_counterexample_dep_overwrites_absent_field :
    ((update_deployment_data
        ⟨["site"], [⟨1, [("site", PyVal.vstr "OLD")]⟩]⟩ 1 []
        ["\x7b\x7d", "\x7b\x7d", "\x7b\x7d", "\x7b\x7d", "\x7b\x7d",
         "\x7b\x7d", "\x7b\x7d", "\x7b\x7d", "\x7b\x7d", "\x7b\x7d"]
        (PyVal.vstr "ts")).2).rows.map (fun r => r.get "site")
      = [some (PyVal.vstr "")] ∧
    ((⟨["site"], [⟨1, [("site", PyVal.vstr "OLD")]⟩]⟩ : Table)).rows.map
        (fun r => r.get "site") = [some (PyVal.vstr "OLD")] :=
  ⟨rfl, rfl⟩

/-- Claim C3 (amended): in the recovery updater the staged write-set
contains a column assignment only for logical fields that resolve to
an existing column and whose value is truthy (the code's notion of
present), and consequently every column without a staged assignment
reads the same value after the update as before.  The deployment
updater is excluded: it stages its fixed column list unconditionally
with empty-string defaults, overwriting columns whose form values are
absent. -/
theorem C3_recovery_writeset_frame :
    (∀ (form : List (String × PyVal)) (avail : List String)
        (c : String) (v : PyVal),
        (c, v) ∈ (update_recovery_stage form avail).1 →
        avail.contains c = true ∧ pyTruthy v = true) ∧
    (∀ (t : Table) (rid : Nat) (form : List (String × PyVal)) (c : String),
        (∀ v, (c, v) ∉ (update_recovery_stage form t.cols).1) →
        ((update_recovery_data t rid form).2).rows.map (fun r => r.get c) =
          t.rows.map (fun r => r.get c)) := by
  constructor
  · intro form avail c v h
    unfold update_recovery_stage at h
    rcases stageMappings_mem h with h' | h'
    · rcases stageMappings_mem h' with h'' | h''
      · simp at h''
      · exact h''
    · exact h'
  · intro t rid form c h
    have hsql := sqlUpdate_proj t rid
      ((update_recovery_stage form t.cols).1) c h
    unfold update_recovery_data
    by_cases hd : ((update_recovery_stage form t.cols).1).isEmpty
    · simp [hd]
    · simp only [hd, Bool.false_eq_true, if_false]
      cases hf : t.rows.find? (fun r => r.id == rid) with
      | none => simp only [hf]
      | some r0 =>
        simp only [hf]
        by_cases h0 : ((sqlUpdate t rid
            ((update_recovery_stage form t.cols).1)).2 == 0) = true
        · simp only [h0, if_true]
        · simp only [h0, Bool.false_eq_true, if_false]
          by_cases h1 : (sqlUpdate t rid
              ((update_recovery_stage form t.cols).1)).2 > 1
          · rw [if_pos h1]
          · rw [if_neg h1]
            cases hv : ((sqlUpdate t rid
                ((update_recovery_stage form t.cols).1)).1).rows.find?
                (fun r => r.id == rid) with
            | none => simp only [hv]; exact hsql
            | some r1 => simp only [hv]; exact hsql

theorem C3_recovery_writeset_frame_witness :
    ((update_recovery_data ⟨["site"], [⟨1, [("site", PyVal.vstr "OLD")]⟩]⟩
        1 []).2).rows.map (fun r => r.get "site") =
      (⟨["site"], [⟨1, [("site", PyVal.vstr "OLD")]⟩]⟩ : Table).rows.map
        (fun r => r.get "site") :=
  C3_recovery_writeset_frame.2 ⟨["site"], [⟨1, [("site", PyVal.vstr "OLD")]⟩]⟩
    1 [] "site"
    (by
      intro v
      have hempty :
          (update_recovery_stage ([] : List (String × PyVal))
            (Table.cols ⟨["site"], [⟨1, [("site", PyVal.vstr "OLD")]⟩]⟩)).1
            = [] := rfl
      rw [hempty]
      simp)

/-! ## Character-level string primitives

The codecs manipulate Python strings character by character; a Python
string is represented as its `List Char`.  Decimal rendering and
parsing mirror Python `str(int)` / `int(str)` on their canonical
digit-string forms. -/

/-- The ASCII digit character of `d` (for `d < 10`). -/
def digitChar (d : Nat) : Char := Char.ofNat (48 + d)

/-- ASCII decimal digit test. -/
def isDigitChar (c : Char) : Bool := 48 ≤ c.toNat && c.toNat ≤ 57

/-- Numeric value of a digit character. -/
def digitVal (c : Char) : Nat := c.toNat - 48

/-- Fuel-driven digit accumulator behind `natToDigits`; the fuel is
always at least the number being rendered, so the zero-fuel arm is
only ever reached for `0` itself. -/
def natToDigitsAux : Nat → Nat → List Char → List Char
  | 0, n, acc => digitChar n :: acc
  | fuel + 1, n, acc =>
    if n < 10 then digitChar n :: acc
    else natToDigitsAux fuel (n / 10) (digitChar (n % 10) :: acc)

/-- Python `str(n)` for a natural number: most significant digit
first, no leading zeros (except for `0` itself). -/
def natToDigits (n : Nat) : List Char := natToDigitsAux n n []

theorem natToDigitsAux_congr : ∀ (f1 : Nat), ∀ (f2 n : Nat) (acc : List Char),
    n ≤ f1 → n ≤ f2 → natToDigitsAux f1 n acc = natToDigitsAux f2 n acc := by
  intro f1
  induction f1 with
  | zero =>
    intro f2 n acc h1 h2
    have : n = 0 := by omega
    subst this
    cases f2 with
    | zero => rfl
    | succ g => simp [natToDigitsAux]
  | succ f ih =>
    intro f2 n acc h1 h2
    by_cases hn : n < 10
    · cases f2 with
      | zero =>
        have : n = 0 := by omega
        subst this
        simp [natToDigitsAux]
      | succ g => simp [natToDigitsAux, hn]
    · cases f2 with
      | zero => omega
      | succ g =>
        simp only [natToDigitsAux, hn, if_false]
        exact ih g (n / 10) _ (by omega) (by omega)

theorem natToDigitsAux_acc : ∀ (fuel n : Nat) (acc : List Char),
    natToDigitsAux fuel n acc = natToDigitsAux fuel n [] ++ acc := by
  intro fuel
  induction fuel with
  | zero => intro n acc; rfl
  | succ f ih =>
    intro n acc
    by_cases hn : n < 10
    · simp [natToDigitsAux, hn]
    · simp only [natToDigitsAux, hn, if_false]
      rw [ih (n / 10) (digitChar (n % 10) :: acc),
        ih (n / 10) [digitChar (n % 10)], List.append_assoc]
      rfl

/-- The recursive unfolding of `natToDigits`: a single digit below
ten, otherwise the digits of `n / 10` followed by the digit of
`n % 10`. -/
theorem natToDigits_eq (n : Nat) :
    natToDigits n = if n < 10 then [digitChar n]
      else natToDigits (n / 10) ++ [digitChar (n % 10)] := by
  unfold natToDigits
  by_cases h : n < 10
  · rw [if_pos h]
    cases n with
    | zero => rfl
    | succ k => simp [natToDigitsAux, h]
  · rw [if_neg h]
    cases n with
    | zero => omega
    | succ k =>
      have hstep : natToDigitsAux (k + 1) (k + 1) [] =
          natToDigitsAux k ((k + 1) / 10) [digitChar ((k + 1) % 10)] := by
        simp [natToDigitsAux, h]
      rw [hstep, natToDigitsAux_acc]
      congr 1
      exact natToDigitsAux_congr k _ ((k + 1) / 10) [] (by omega) (by omega)

/-- Value of a digit string (most significant first). -/
def digitsToNat (l : List Char) : Nat :=
  l.foldl (fun a c => 10 * a + digitVal c) 0

/-- Python `int(s)` restricted to plain unsigned digit strings. -/
def pyParseNat (l : List Char) : Option Nat :=
  if l ≠ [] ∧ l.all isDigitChar then some (digitsToNat l) else none

/-- Python `str(i)` for an integer. -/
def intToChars (i : Int) : List Char :=
  if i < 0 then '-' :: natToDigits i.natAbs else natToDigits i.natAbs

/-- `f"{n:02d}"`: the decimal digits of `n` left-padded with `'0'` to
width two. -/
def pad2 (n : Nat) : List Char :=
  if n < 10 then '0' :: natToDigits n else natToDigits n

/-- Python `s.split(sep)` for a single separator character. -/
def splitOnChar (sep : Char) : List Char → List (List Char)
  | [] => [[]]
  | c :: rest =>
    match splitOnChar sep rest with
    | [] => [[]]
    | h :: t => if c = sep then [] :: h :: t else (c :: h) :: t

/-- Strip leading and trailing whitespace of a character list
(Python `str.strip()` / the implicit strip of `float()`). -/
def trimChars (l : List Char) : List Char :=
  ((l.dropWhile Char.isWhitespace).reverse.dropWhile Char.isWhitespace).reverse

theorem digitChar_toNat {d : Nat} (h : d < 10) :
    (digitChar d).toNat = 48 + d := by
  interval_cases d <;> decide

theorem isDigitChar_digitChar {d : Nat} (h : d < 10) :
    isDigitChar (digitChar d) = true := by
  interval_cases d <;> decide

theorem digitVal_digitChar {d : Nat} (h : d < 10) :
    digitVal (digitChar d) = d := by
  interval_cases d <;> decide

theorem natToDigits_ne_nil (n : Nat) : natToDigits n ≠ [] := by
  rw [natToDigits_eq]
  by_cases h : n < 10
  · simp [h]
  · simp [h]

theorem natToDigits_all_digits (n : Nat) :
    ∀ c ∈ natToDigits n, isDigitChar c = true := by
  induction n using Nat.strong_induction_on with
  | _ n ih =>
    rw [natToDigits_eq]
    by_cases h : n < 10
    · simp only [h, if_true]
      intro c hc
      rcases List.mem_singleton.mp hc with rfl
      exact isDigitChar_digitChar h
    · simp only [h, if_false]
      intro c hc
      rcases List.mem_append.mp hc with hc | hc
      · exact ih (n / 10) (Nat.div_lt_self (by omega) (by omega)) c hc
      · rcases List.mem_singleton.mp hc with rfl
        exact isDigitChar_digitChar (Nat.mod_lt _ (by omega))

theorem digitsToNat_append_singleton (l : List Char) (c : Char) :
    digitsToNat (l ++ [c]) = 10 * digitsToNat l + digitVal c := by
  unfold digitsToNat
  rw [List.foldl_append]
  rfl

theorem digitsToNat_natToDigits (n : Nat) :
    digitsToNat (natToDigits n) = n := by
  induction n using Nat.strong_induction_on with
  | _ n ih =>
    rw [natToDigits_eq]
    by_cases h : n < 10
    · simp only [h, if_true]
      unfold digitsToNat
      simp [digitVal_digitChar h]
    · simp only [h, if_false]
      rw [digitsToNat_append_singleton,
        ih (n / 10) (Nat.div_lt_self (by omega) (by omega)),
        digitVal_digitChar (Nat.mod_lt _ (by omega))]
      omega

theorem pyParseNat_natToDigits (n : Nat) :
    pyParseNat (natToDigits n) = some n := by
  unfold pyParseNat
  rw [if_pos ⟨natToDigits_ne_nil n, List.all_eq_true.mpr (natToDigits_all_digits n)⟩,
    digitsToNat_natToDigits]

theorem pad2_all_digits (n : Nat) : ∀ c ∈ pad2 n, isDigitChar c = true := by
  unfold pad2
  by_cases h : n < 10
  · simp only [h, if_true]
    intro c hc
    rcases List.mem_cons.mp hc with rfl | hc
    · decide
    · exact natToDigits_all_digits n c hc
  · simp only [h, if_false]
    exact natToDigits_all_digits n

theorem pad2_ne_nil (n : Nat) : pad2 n ≠ [] := by
  unfold pad2
  by_cases h : n < 10
  · simp [h]
  · simp [h]
    exact natToDigits_ne_nil n

theorem digitsToNat_pad2 (n : Nat) : digitsToNat (pad2 n) = n := by
  unfold pad2
  by_cases h : n < 10
  · simp only [h, if_true]
    have : digitsToNat ('0' :: natToDigits n) = digitsToNat (natToDigits n) := by
      unfold digitsToNat
      simp [List.foldl_cons]
      rfl
    rw [this, digitsToNat_natToDigits]
  · simp only [h, if_false]
    exact digitsToNat_natToDigits n

theorem pyParseNat_pad2 (n : Nat) : pyParseNat (pad2 n) = some n := by
  unfold pyParseNat
  rw [if_pos ⟨pad2_ne_nil n, List.all_eq_true.mpr (pad2_all_digits n)⟩,
    digitsToNat_pad2]

theorem not_special_of_digit {c : Char} (h : isDigitChar c = true) :
    c ≠ ':' ∧ c ≠ '-' ∧ c ≠ '+' ∧ c ≠ '.' ∧ c.isWhitespace = false := by
  unfold isDigitChar at h
  obtain ⟨h1, h2⟩ : 48 ≤ c.toNat ∧ c.toNat ≤ 57 := by simpa using h
  refine ⟨?_, ?_, ?_, ?_, ?_⟩
  · intro he; subst he; exact absurd h2 (by decide)
  · intro he; subst he; exact absurd h1 (by decide)
  · intro he; subst he; exact absurd h1 (by decide)
  · intro he; subst he; exact absurd h1 (by decide)
  · have w1 : c ≠ ' ' := by intro he; subst he; exact absurd h1 (by decide)
    have w2 : c ≠ '\t' := by intro he; subst he; exact absurd h1 (by decide)
    have w3 : c ≠ '\x0d' := by intro he; subst he; exact absurd h1 (by decide)
    have w4 : c ≠ '\n' := by intro he; subst he; exact absurd h1 (by decide)
    simp [Char.isWhitespace, w1, w2, w3, w4]

theorem splitOnChar_cons (sep c : Char) (rest : List Char) :
    splitOnChar sep (c :: rest) =
      match splitOnChar sep rest with
      | [] => [[]]
      | h :: t => if c = sep then [] :: h :: t else (c :: h) :: t := rfl

theorem splitOnChar_ne_nil (sep : Char) (l : List Char) :
    splitOnChar sep l ≠ [] := by
  cases l with
  | nil => simp [splitOnChar]
  | cons c rest =>
    rw [splitOnChar_cons]
    cases h : splitOnChar sep rest with
    | nil => simp
    | cons a t =>
      by_cases hc : c = sep
      · simp [hc]
      · simp [hc]

theorem splitOnChar_no_sep {sep : Char} {l : List Char}
    (h : ∀ c ∈ l, c ≠ sep) : splitOnChar sep l = [l] := by
  induction l with
  | nil => rfl
  | cons c rest ih =>
    rw [splitOnChar_cons, ih (fun x hx => h x (List.mem_cons_of_mem _ hx))]
    have : ¬ c = sep := h c (List.mem_cons_self _ _)
    simp [this]

theorem splitOnChar_append {sep : Char} {A B : List Char}
    (h : ∀ c ∈ A, c ≠ sep) :
    splitOnChar sep (A ++ sep :: B) = A :: splitOnChar sep B := by
  induction A with
  | nil =>
    simp only [List.nil_append]
    rw [splitOnChar_cons]
    cases hB : splitOnChar sep B with
    | nil => exact absurd hB (splitOnChar_ne_nil sep B)
    | cons a t => simp
  | cons c rest ih =>
    simp only [List.cons_append]
    rw [splitOnChar_cons, ih (fun x hx => h x (List.mem_cons_of_mem _ hx))]
    have : ¬ c = sep := h c (List.mem_cons_self _ _)
    simp [this]

theorem contains_of_mem {l : List Char} {c : Char} (h : c ∈ l) :
    l.contains c = true := by
  have : l.elem c = true := List.elem_iff.mpr h
  simpa [List.contains] using this

theorem takeWhile_append_stop {p : Char → Bool} {A : List Char}
    {b : Char} {B : List Char} (hA : ∀ c ∈ A, p c = true)
    (hb : p b = false) : (A ++ b :: B).takeWhile p = A := by
  induction A with
  | nil => simp [List.takeWhile, hb]
  | cons c rest ih =>
    simp only [List.cons_append, List.takeWhile]
    rw [hA c (List.mem_cons_self _ _)]
    simp only
    show c :: List.takeWhile p (rest ++ b :: B) = c :: rest
    rw [ih (fun x hx => hA x (List.mem_cons_of_mem _ hx))]

theorem dropWhile_append_stop {p : Char → Bool} {A : List Char}
    {b : Char} {B : List Char} (hA : ∀ c ∈ A, p c = true)
    (hb : p b = false) : (A ++ b :: B).dropWhile p = b :: B := by
  induction A with
  | nil => simp [List.dropWhile, hb]
  | cons c rest ih =>
    simp only [List.cons_append, List.dropWhile]
    rw [hA c (List.mem_cons_self _ _)]
    simp only
    show List.dropWhile p (rest ++ b :: B) = b :: B
    exact ih (fun x hx => hA x (List.mem_cons_of_mem _ hx))

theorem takeWhile_all {p : Char → Bool} {A : List Char}
    (hA : ∀ c ∈ A, p c = true) : A.takeWhile p = A := by
  induction A with
  | nil => rfl
  | cons c rest ih =>
    simp only [List.takeWhile]
    rw [hA c (List.mem_cons_self _ _)]
    simp only
    rw [ih (fun x hx => hA x (List.mem_cons_of_mem _ hx))]

theorem dropWhile_all {p : Char → Bool} {A : List Char}
    (hA : ∀ c ∈ A, p c = true) : A.dropWhile p = [] := by
  induction A with
  | nil => rfl
  | cons c rest ih =>
    simp only [List.dropWhile]
    rw [hA c (List.mem_cons_self _ _)]
    simp only
    exact ih (fun x hx => hA x (List.mem_cons_of_mem _ hx))

theorem dropWhile_false_head {p : Char → Bool} {A : List Char}
    (hA : ∀ c ∈ A, p c = false) : A.dropWhile p = A := by
  cases A with
  | nil => rfl
  | cons c rest =>
    simp only [List.dropWhile]
    rw [hA c (List.mem_cons_self _ _)]

theorem trimChars_no_whitespace {l : List Char}
    (h : ∀ c ∈ l, c.isWhitespace = false) : trimChars l = l := by
  unfold trimChars
  rw [dropWhile_false_head h,
    dropWhile_false_head (fun c hc => h c (List.mem_reverse.mp hc)),
    List.reverse_reverse]

/-! ## Numeric string parsing (Python `float` / `int`) -/

/-- The unsigned decimal body accepted by Python `float()`: a digit
run with an optional point and fraction run (`"5"`, `"5."`, `"5.3"`,
`".3"`); scientific notation and the special words are outside the
domain exercised by the repository's data. -/
def parseUnsignedDecimal (l : List Char) : Option Rat :=
  let intPart := l.takeWhile isDigitChar
  let rest := l.dropWhile isDigitChar
  match rest with
  | [] => if intPart = [] then none else some (digitsToNat intPart : Rat)
  | '.' :: frac =>
      if frac.all isDigitChar ∧ (intPart ≠ [] ∨ frac ≠ []) then
        some (mkRat ((digitsToNat intPart : Int) * 10 ^ frac.length +
          (digitsToNat frac : Int)) (10 ^ frac.length))
      else none
  | _ => none

/-- Python `float(s)`: strip whitespace, take an optional sign, then
the unsigned decimal body. -/
def pyFloatParse (l : List Char) : Option Rat :=
  let t := trimChars l
  if t.head? = some '-' then (parseUnsignedDecimal t.tail).map (fun q => -q)
  else if t.head? = some '+' then parseUnsignedDecimal t.tail
  else parseUnsignedDecimal t

/-- Python `int(q)` on a float value: truncation toward zero. -/
def ratTrunc (q : Rat) : Int := Int.tdiv q.num q.den

/-! ## The clock-error codec (rec_form_JSON.py:99-169) -/

/-- The display string `f"{sign}{minutes}:{secs:02d}"` of the codec:
an optional leading minus, the minutes without padding, a colon, and
the seconds padded to two digits.  The set of valid `M:SS` display
strings is exactly the image of this function. -/
def renderMMSS (neg : Bool) (m s : Nat) : List Char :=
  (if neg then ['-'] else []) ++ natToDigits m ++ ':' :: pad2 s

/-- `format_clock_error_to_mmss` on an integer database value
(rec_form_JSON.py:99-130): keep the sign, then split the absolute
value with the base-100 rule — below 100 it is seconds only, from 100
on the last two digits are the seconds and the rest the minutes. -/
def format_clock_error_to_mmss (mmss_value : Int) : List Char :=
  if mmss_value.natAbs < 100 then
    (if mmss_value < 0 then ['-'] else []) ++
      natToDigits 0 ++ ':' :: pad2 mmss_value.natAbs
  else
    (if mmss_value < 0 then ['-'] else []) ++
      natToDigits (mmss_value.natAbs / 100) ++ ':' :: pad2 (mmss_value.natAbs % 100)

/-- The string entry point of `format_clock_error_to_mmss`: empty
input gives the empty string, otherwise `int(float(str(value)))` is
formatted, and a value that fails numeric conversion is returned
unchanged. -/
def format_clock_error_str (l : List Char) : List Char :=
  if l = [] then []
  else match pyFloatParse l with
    | some q => format_clock_error_to_mmss (ratTrunc q)
    | none => l

/-- `startswith('-')` handling of `parse_clock_error_from_mmss`:
the sign factor and the sign-stripped remainder. -/
def stripNeg (l : List Char) : Int × List Char :=
  if l.head? = some '-' then (-1, l.tail) else (1, l)

/-- The `M:SS` branch of `parse_clock_error_from_mmss`
(rec_form_JSON.py:150-169): strip the sign, split on `':'`; exactly
two numeric parts encode as `sign * (minutes * 100 + seconds)`, and
anything else falls back to returning the (sign-stripped) string. -/
def parseMMSSBody (l : List Char) : List Char :=
  let sr := stripNeg l
  match splitOnChar ':' sr.2 with
  | [p1, p2] =>
      match pyParseNat p1, pyParseNat p2 with
      | some m, some s => intToChars (sr.1 * ((m : Int) * 100 + (s : Int)))
      | _, _ => sr.2
  | _ => sr.2

/-- `parse_clock_error_from_mmss` (rec_form_JSON.py:132-169): empty
input passes through; a colon-free numeric string is already in
database form and is normalized through `int(float(...))`; otherwise
the `M:SS` branch runs. -/
def parse_clock_error_from_mmss (l : List Char) : List Char :=
  if l = [] then []
  else if l.contains ':' = false then
    match pyFloatParse l with
    | some q => intToChars (ratTrunc q)
    | none => parseMMSSBody l
  else parseMMSSBody l

theorem parseUnsignedDecimal_natToDigits (n : Nat) :
    parseUnsignedDecimal (natToDigits n) = some (n : Rat) := by
  unfold parseUnsignedDecimal
  rw [takeWhile_all (natToDigits_all_digits n),
    dropWhile_all (natToDigits_all_digits n)]
  simp only
  rw [if_neg (by simpa using natToDigits_ne_nil n), digitsToNat_natToDigits]

theorem pyFloatParse_natToDigits (n : Nat) :
    pyFloatParse (natToDigits n) = some (n : Rat) := by
  unfold pyFloatParse
  have htrim : trimChars (natToDigits n) = natToDigits n :=
    trimChars_no_whitespace
      (fun c hc => (not_special_of_digit (natToDigits_all_digits n c hc)).2.2.2.2)
  obtain ⟨c, cs, hc⟩ := List.exists_cons_of_ne_nil (natToDigits_ne_nil n)
  have hcd := natToDigits_all_digits n c (by rw [hc]; exact List.mem_cons_self _ _)
  have hspec := not_special_of_digit hcd
  simp only [htrim]
  rw [hc, List.head?_cons]
  rw [if_neg (by simp [hspec.2.1]), if_neg (by simp [hspec.2.2.1]), ← hc]
  exact parseUnsignedDecimal_natToDigits n

theorem pyFloatParse_intToChars (v : Int) :
    pyFloatParse (intToChars v) = some ((v : Int) : Rat) := by
  unfold intToChars
  by_cases hv : v < 0
  · rw [if_pos hv]
    unfold pyFloatParse
    have htrim : trimChars ('-' :: natToDigits v.natAbs)
        = '-' :: natToDigits v.natAbs := by
      apply trimChars_no_whitespace
      intro c hc
      rcases List.mem_cons.mp hc with rfl | hc
      · decide
      · exact (not_special_of_digit (natToDigits_all_digits _ c hc)).2.2.2.2
    simp only [htrim, List.head?_cons, List.tail_cons, if_pos rfl]
    rw [parseUnsignedDecimal_natToDigits]
    have habs2 : ((v.natAbs : Nat) : Rat) = -((v : Int) : Rat) := by
      rw [show ((v.natAbs : Nat) : Rat) = ((v.natAbs : Int) : Rat) from
        (Int.cast_natCast v.natAbs).symm]
      rw [(by omega : ((v.natAbs : Int)) = -v)]
      push_cast
      ring
    simp [habs2]
  · rw [if_neg hv]
    rw [pyFloatParse_natToDigits]
    have habs2 : ((v.natAbs : Nat) : Rat) = ((v : Int) : Rat) := by
      rw [show ((v.natAbs : Nat) : Rat) = ((v.natAbs : Int) : Rat) from
        (Int.cast_natCast v.natAbs).symm]
      rw [(by omega : ((v.natAbs : Int)) = v)]
    rw [habs2]

theorem ratTrunc_intCast (v : Int) : ratTrunc ((v : Int) : Rat) = v := by
  unfold ratTrunc
  rw [Rat.num_intCast, Rat.den_intCast]
  simp

theorem intToChars_ne_nil (v : Int) : intToChars v ≠ [] := by
  unfold intToChars
  by_cases hv : v < 0
  · simp [hv]
  · simp [hv]
    exact natToDigits_ne_nil _

theorem format_clock_error_str_intToChars (v : Int) :
    format_clock_error_str (intToChars v) = format_clock_error_to_mmss v := by
  unfold format_clock_error_str
  rw [if_neg (intToChars_ne_nil v), pyFloatParse_intToChars]
  simp only [ratTrunc_intCast]

theorem renderMMSS_ne_nil (neg : Bool) (m s : Nat) :
    renderMMSS neg m s ≠ [] := by
  unfold renderMMSS
  cases neg with
  | true => simp
  | false =>
    simp only [List.nil_append, if_false, Bool.false_eq_true]
    intro h
    rcases List.append_eq_nil.mp h with ⟨h1, _⟩
    exact natToDigits_ne_nil m h1

theorem renderMMSS_contains_colon (neg : Bool) (m s : Nat) :
    (renderMMSS neg m s).contains ':' = true := by
  apply contains_of_mem
  unfold renderMMSS
  simp

theorem parseMMSSBody_render (neg : Bool) (m s : Nat) :
    parseMMSSBody (renderMMSS neg m s) =
      intToChars ((if neg then (-1 : Int) else 1) * ((m : Int) * 100 + (s : Int))) := by
  have hsplit : splitOnChar ':' (natToDigits m ++ ':' :: pad2 s)
      = [natToDigits m, pad2 s] := by
    rw [splitOnChar_append
      (fun c hc => (not_special_of_digit (natToDigits_all_digits m c hc)).1),
      splitOnChar_no_sep
      (fun c hc => (not_special_of_digit (pad2_all_digits s c hc)).1)]
  have hstrip : stripNeg (renderMMSS neg m s) =
      ((if neg then (-1 : Int) else 1), natToDigits m ++ ':' :: pad2 s) := by
    unfold stripNeg renderMMSS
    cases neg with
    | true => simp
    | false =>
      simp only [if_false, Bool.false_eq_true, List.nil_append]
      obtain ⟨c, cs, hc⟩ := List.exists_cons_of_ne_nil (natToDigits_ne_nil m)
      have hcd := natToDigits_all_digits m c
        (by rw [hc]; exact List.mem_cons_self _ _)
      rw [hc, List.cons_append, List.head?_cons]
      rw [if_neg (by simp [(not_special_of_digit hcd).2.1]), ← List.cons_append, ← hc]
  unfold parseMMSSBody
  rw [hstrip]
  simp only [hsplit]
  rw [pyParseNat_natToDigits, pyParseNat_pad2]

theorem parse_clock_error_render (neg : Bool) (m s : Nat) :
    parse_clock_error_from_mmss (renderMMSS neg m s) =
      intToChars ((if neg then (-1 : Int) else 1) * ((m : Int) * 100 + (s : Int))) := by
  unfold parse_clock_error_from_mmss
  rw [if_neg (renderMMSS_ne_nil neg m s)]
  rw [renderMMSS_contains_colon]
  simp only [Bool.true_eq_false, if_false]
  exact parseMMSSBody_render neg m s

theorem format_clock_error_encoded (neg : Bool) (m s : Nat) (hs : s < 100)
    (hpos : neg = true → 0 < m * 100 + s) :
    format_clock_error_to_mmss
        ((if neg then (-1 : Int) else 1) * ((m : Int) * 100 + (s : Int))) =
      renderMMSS neg m s := by
  cases neg with
  | true =>
    have hp := hpos rfl
    have habs : ((if (true : Bool) then (-1 : Int) else 1) *
        ((m : Int) * 100 + (s : Int))).natAbs = m * 100 + s := by
      simp only [if_true]
      omega
    have hlt : (if (true : Bool) then (-1 : Int) else 1) *
        ((m : Int) * 100 + (s : Int)) < 0 := by
      simp only [if_true]
      omega
    unfold format_clock_error_to_mmss renderMMSS
    rw [habs, if_pos hlt]
    by_cases hm : m = 0
    · subst hm
      simp only [Nat.zero_mul, Nat.zero_add]
      rw [if_pos hs]
      simp
    · have h100 : ¬ (m * 100 + s < 100) := by
        rcases Nat.exists_eq_succ_of_ne_zero hm with ⟨k, hk⟩
        omega
      rw [if_neg h100, (by omega : (m * 100 + s) / 100 = m),
        (by omega : (m * 100 + s) % 100 = s)]
      simp
  | false =>
    have habs : ((if (false : Bool) then (-1 : Int) else 1) *
        ((m : Int) * 100 + (s : Int))).natAbs = m * 100 + s := by
      simp
      omega
    have hge : ¬ ((if (false : Bool) then (-1 : Int) else 1) *
        ((m : Int) * 100 + (s : Int)) < 0) := by
      simp
      omega
    unfold format_clock_error_to_mmss renderMMSS
    rw [habs, if_neg hge]
    by_cases hm : m = 0
    · subst hm
      simp only [Nat.zero_mul, Nat.zero_add]
      rw [if_pos hs]
      simp
    · have h100 : ¬ (m * 100 + s < 100) := by
        rcases Nat.exists_eq_succ_of_ne_zero hm with ⟨k, hk⟩
        omega
      rw [if_neg h100, (by omega : (m * 100 + s) / 100 = m),
        (by omega : (m * 100 + s) % 100 = s)]
      simp

/-- Claim C4: the clock-error codec round-trips: for every valid
`M:SS` display string (an optional minus — never on a zero value, as
the display format only emits a minus for strictly negative encodings
— unpadded minutes, and two seconds digits below 100, which covers
all seconds below 60 and in particular minutes of 60 and beyond),
decoding the encoded database integer reproduces the string exactly,
under the base-100 rule: absolute values below 100 decode as seconds
only, and larger values split as value div 100 minutes and value mod
100 seconds.  The claim's concrete pairs are also checked:
`"10:05"` ↔ `1005`, `"-0:30"` ↔ `-30`, `"0:30"` ↔ `30`. -/
theorem C4_clock_error_round_trip :
    (∀ (neg : Bool) (m s : Nat), s < 100 → (neg = true → 0 < m * 100 + s) →
      format_clock_error_str
          (parse_clock_error_from_mmss (renderMMSS neg m s)) =
        renderMMSS neg m s) ∧
    parse_clock_error_from_mmss ("10:05".toList) = "1005".toList ∧
    format_clock_error_str ("1005".toList) = "10:05".toList ∧
    parse_clock_error_from_mmss ("-0:30".toList) = "-30".toList ∧
    format_clock_error_str ("-30".toList) = "-0:30".toList ∧
    parse_clock_error_from_mmss ("0:30".toList) = "30".toList ∧
    format_clock_error_str ("30".toList) = "0:30".toList := by
  refine ⟨?_, ?_, ?_, ?_, ?_, ?_, ?_⟩
  · intro neg m s hs hpos
    rw [parse_clock_error_render, format_clock_error_str_intToChars,
      format_clock_error_encoded neg m s hs hpos]
  all_goals decide

theorem C4_clock_error_round_trip_witness :
    format_clock_error_str
        (parse_clock_error_from_mmss (renderMMSS true 10 5)) =
      renderMMSS true 10 5 :=
  C4_clock_error_round_trip.1 true 10 5 (by decide) (fun _ => by decide)

/-! ## Clock-error auto-calculation (rec_form_JSON.py:305-343) -/

/-- One `%H`/`%M`/`%S` component of `strptime`: one or two digits. -/
def parseTimeComponent (l : List Char) : Option Nat :=
  if l ≠ [] ∧ l.length ≤ 2 ∧ l.all isDigitChar then some (digitsToNat l)
  else none

/-- `datetime.strptime(f"2000-01-01 {t}", "%Y-%m-%d %H:%M:%S")`
reduced to its time-of-day part: three colon-separated components
with the hour below 24 and minutes/seconds below 60; the result is
the second-of-day count. -/
def parseHHMMSS (l : List Char) : Option Nat :=
  match splitOnChar ':' l with
  | [h, m, s] =>
    match parseTimeComponent h, parseTimeComponent m, parseTimeComponent s with
    | some hv, some mv, some sv =>
        if hv < 24 ∧ mv < 60 ∧ sv < 60 then
          some (hv * 3600 + mv * 60 + sv)
        else none
    | _, _, _ => none
  | _ => none

/-- The signed `M:SS` rendering of a second count used by
`calculate_clock_error`: sign of the difference, then minutes
(total div 60) and seconds (total mod 60). -/
def renderSignedMSS (total : Int) : List Char :=
  (if total < 0 then ['-'] else []) ++
    natToDigits (total.natAbs / 60) ++ ':' :: pad2 (total.natAbs % 60)

/-- `calculate_clock_error` (rec_form_JSON.py:305-343): empty inputs
give the empty string; both times are parsed as `HH:MM:SS` on a dummy
date and subtracted; the difference is rendered as `M:SS` with a
leading minus when negative (a parse failure of either time also
gives the empty string, the except branch). -/
def calculate_clock_error (actual_time inst_time : List Char) : List Char :=
  if actual_time = [] ∨ inst_time = [] then []
  else match parseHHMMSS actual_time, parseHHMMSS inst_time with
    | some a, some i => renderSignedMSS ((a : Int) - (i : Int))
    | _, _ => []

/-- `HH:MM:SS` rendering with two-digit components. -/
def renderTimeHHMMSS (h m s : Nat) : List Char :=
  pad2 h ++ ':' :: (pad2 m ++ ':' :: pad2 s)

theorem pad2_length_le (n : Nat) (h : n < 100) : (pad2 n).length ≤ 2 := by
  unfold pad2
  by_cases h10 : n < 10
  · rw [if_pos h10, natToDigits_eq, if_pos h10]
    rfl
  · rw [if_neg h10, natToDigits_eq, if_neg h10, natToDigits_eq,
      if_pos (by omega : n / 10 < 10)]
    rfl

theorem parseTimeComponent_pad2 (n : Nat) (h : n < 100) :
    parseTimeComponent (pad2 n) = some n := by
  unfold parseTimeComponent
  rw [if_pos ⟨pad2_ne_nil n, pad2_length_le n h,
    List.all_eq_true.mpr (pad2_all_digits n)⟩, digitsToNat_pad2]

theorem parseHHMMSS_render (h m s : Nat) (hh : h < 24) (hm : m < 60)
    (hs : s < 60) :
    parseHHMMSS (renderTimeHHMMSS h m s) = some (h * 3600 + m * 60 + s) := by
  unfold parseHHMMSS renderTimeHHMMSS
  have hsplit : splitOnChar ':' (pad2 h ++ ':' :: (pad2 m ++ ':' :: pad2 s))
      = [pad2 h, pad2 m, pad2 s] := by
    rw [splitOnChar_append
      (fun c hc => (not_special_of_digit (pad2_all_digits h c hc)).1),
      splitOnChar_append
      (fun c hc => (not_special_of_digit (pad2_all_digits m c hc)).1),
      splitOnChar_no_sep
      (fun c hc => (not_special_of_digit (pad2_all_digits s c hc)).1)]
  simp only [hsplit]
  rw [parseTimeComponent_pad2 h (by omega), parseTimeComponent_pad2 m (by omega),
    parseTimeComponent_pad2 s (by omega)]
  simp [hh, hm, hs]

theorem renderTimeHHMMSS_ne_nil (h m s : Nat) :
    renderTimeHHMMSS h m s ≠ [] := by
  unfold renderTimeHHMMSS
  intro hc
  rcases List.append_eq_nil.mp hc with ⟨h1, _⟩
  exact pad2_ne_nil h h1

/-- Counterexample to claim C5 as stated: with
`actual = "00:00:10"` and `instrument = "23:59:50"` (a day-rollover
case), the claimed 24-hour wraparound would give the positive wrapped
difference `"0:20"`; the code instead keeps the negative difference
and returns `"-1439:40"`. -/
theorem C5_counterexample_no_wraparound :
    calculate_clock_error ("00:00:10".toList) ("23:59:50".toList)
        = "-1439:40".toList ∧
    calculate_clock_error ("00:00:10".toList) ("23:59:50".toList)
        ≠ "0:20".toList := by
  constructor
  · decide
  · decide

/-- Claim C5 (amended): for every pair of `HH:MM:SS` times the
auto-calculated clock error is actual minus instrument rendered in
`M:SS` (minutes = seconds-difference div 60, seconds = mod 60), with
the sign kept: a negative difference is rendered with a leading
minus, and no 24-hour wraparound is applied on day rollover. -/
theorem C5_clock_error_calculation :
    ∀ (h1 m1 s1 h2 m2 s2 : Nat), h1 < 24 → m1 < 60 → s1 < 60 →
      h2 < 24 → m2 < 60 → s2 < 60 →
      calculate_clock_error (renderTimeHHMMSS h1 m1 s1)
          (renderTimeHHMMSS h2 m2 s2) =
        renderSignedMSS (((h1 * 3600 + m1 * 60 + s1 : Nat) : Int) -
          ((h2 * 3600 + m2 * 60 + s2 : Nat) : Int)) := by
  intro h1 m1 s1 h2 m2 s2 hh1 hm1 hs1 hh2 hm2 hs2
  unfold calculate_clock_error
  rw [if_neg (by
    intro hc
    rcases hc with hc | hc
    · exact renderTimeHHMMSS_ne_nil h1 m1 s1 hc
    · exact renderTimeHHMMSS_ne_nil h2 m2 s2 hc)]
  rw [parseHHMMSS_render h1 m1 s1 hh1 hm1 hs1,
    parseHHMMSS_render h2 m2 s2 hh2 hm2 hs2]

theorem C5_clock_error_calculation_witness :
    calculate_clock_error (renderTimeHHMMSS 0 0 10)
        (renderTimeHHMMSS 23 59 50) =
      renderSignedMSS (((0 * 3600 + 0 * 60 + 10 : Nat) : Int) -
        ((23 * 3600 + 59 * 60 + 50 : Nat) : Int)) :=
  C5_clock_error_calculation 0 0 10 23 59 50 (by decide) (by decide)
    (by decide) (by decide) (by decide) (by decide)

/-! ## The two serial-number normalizers -/

/-- `clean_serial_number` of the recovery form
(rec_form_JSON.py:77-97): empty or missing input gives `''`; a string
containing `'.'` is converted through `float`, and when the float is
an integer the integer's decimal string is returned; any conversion
failure, and any string without a point, passes through unchanged. -/
def clean_serial_number_rec (sn : List Char) : List Char :=
  if sn = [] then []
  else if sn.contains '.' then
    match pyFloatParse sn with
    | some q => if q.den = 1 then intToChars q.num else sn
    | none => sn
  else sn

/-- `clean_serial_number` of the repair form
(repair_form_JSON.py:857-865): empty or missing input gives `''`;
otherwise the value is stripped and a literal trailing `".0"` suffix
is removed; everything else passes through (stripped). -/
def clean_serial_number_repair (value : List Char) : List Char :=
  if value = [] then []
  else
    let s := trimChars value
    if s.reverse.take 2 = ['0', '.'] then s.take (s.length - 2) else s

/-- Counterexample to claim C10: the two normalizer implementations
are not equivalent.  On `"11153.00"` the recovery version collapses
the float-integer value to `"11153"` while the repair version, which
only strips a literal `".0"` suffix, returns the input unchanged; on
`"D196.0"` the recovery version leaves the unparseable string intact
while the repair version strips the suffix to `"D196"`. -/
theorem C10_counterexample_normalizers_differ :
    clean_serial_number_rec ("11153.00".toList) = "11153".toList ∧
    clean_serial_number_repair ("11153.00".toList) = "11153.00".toList ∧
    clean_serial_number_rec ("D196.0".toList) = "D196.0".toList ∧
    clean_serial_number_repair ("D196.0".toList) = "D196".toList ∧
    clean_serial_number_rec ("11153.00".toList)
      ≠ clean_serial_number_repair ("11153.00".toList) ∧
    clean_serial_number_rec ("D196.0".toList)
      ≠ clean_serial_number_repair ("D196.0".toList) := by
  refine ⟨?_, ?_, ?_, ?_, ?_, ?_⟩ <;> decide

theorem contains_eq_false {l : List Char} {c : Char} (h : c ∉ l) :
    l.contains c = false := by
  cases hc : l.contains c with
  | false => rfl
  | true =>
    have : l.elem c = true := hc
    exact absurd (List.elem_iff.mp this) h

theorem natToDigits_not_contains_dot (n : Nat) :
    (natToDigits n).contains '.' = false := by
  apply contains_eq_false
  intro hm
  exact (not_special_of_digit (natToDigits_all_digits n '.' hm)).2.2.2.1 rfl

theorem natToDigits_trim (n : Nat) : trimChars (natToDigits n) = natToDigits n :=
  trimChars_no_whitespace
    (fun c hc => (not_special_of_digit (natToDigits_all_digits n c hc)).2.2.2.2)

theorem dotZero_trim (n : Nat) :
    trimChars (natToDigits n ++ ['.', '0']) = natToDigits n ++ ['.', '0'] := by
  apply trimChars_no_whitespace
  intro c hc
  rcases List.mem_append.mp hc with hc | hc
  · exact (not_special_of_digit (natToDigits_all_digits n c hc)).2.2.2.2
  · rcases List.mem_cons.mp hc with rfl | hc
    · decide
    · rcases List.mem_singleton.mp hc with rfl
      decide

theorem parseUnsignedDecimal_dotZero (n : Nat) :
    parseUnsignedDecimal (natToDigits n ++ ['.', '0']) = some ((n : Nat) : Rat) := by
  unfold parseUnsignedDecimal
  have htake : (natToDigits n ++ ['.', '0']).takeWhile isDigitChar
      = natToDigits n :=
    takeWhile_append_stop (natToDigits_all_digits n) (by decide)
  have hdrop : (natToDigits n ++ ['.', '0']).dropWhile isDigitChar
      = '.' :: ['0'] :=
    dropWhile_append_stop (natToDigits_all_digits n) (by decide)
  simp only [htake, hdrop]
  rw [if_pos ⟨by decide, Or.inl (natToDigits_ne_nil n)⟩]
  congr 1
  rw [digitsToNat_natToDigits]
  have h0 : (digitsToNat ['0'] : Int) = 0 := by decide
  rw [h0]
  have hlen : (['0'] : List Char).length = 1 := rfl
  rw [hlen]
  rw [Rat.mkRat_eq_div]
  push_cast
  field_simp

theorem pyFloatParse_dotZero (n : Nat) :
    pyFloatParse (natToDigits n ++ ['.', '0']) = some ((n : Nat) : Rat) := by
  unfold pyFloatParse
  simp only [dotZero_trim]
  obtain ⟨c, cs, hc⟩ := List.exists_cons_of_ne_nil (natToDigits_ne_nil n)
  have hcd := natToDigits_all_digits n c (by rw [hc]; exact List.mem_cons_self _ _)
  have hspec := not_special_of_digit hcd
  rw [hc, List.cons_append, List.head?_cons]
  rw [if_neg (by simp [hspec.2.1]), if_neg (by simp [hspec.2.2.1]),
    ← List.cons_append, ← hc]
  exact parseUnsignedDecimal_dotZero n

/-- Claim C10 (amended): the two serial-number normalizers are not
equivalent in general (see the counterexample), but they agree on the
canonical inputs the normalization exists for: for every serial
number that is a plain decimal numeral (within the range where the
float round trip the recovery version performs is exact), both
return the numeral unchanged, and both strip a single trailing
`".0"` suffix down to the numeral. -/
theorem C10_normalizers_agree_on_canonical :
    ∀ n : Nat, n ≤ 10 ^ 15 →
      clean_serial_number_rec (natToDigits n) = natToDigits n ∧
      clean_serial_number_repair (natToDigits n) = natToDigits n ∧
      clean_serial_number_rec (natToDigits n ++ ['.', '0']) = natToDigits n ∧
      clean_serial_number_repair (natToDigits n ++ ['.', '0'])
        = natToDigits n := by
  intro n hn
  refine ⟨?_, ?_, ?_, ?_⟩
  · unfold clean_serial_number_rec
    rw [if_neg (natToDigits_ne_nil n), natToDigits_not_contains_dot]
    simp
  · unfold clean_serial_number_repair
    rw [if_neg (natToDigits_ne_nil n)]
    simp only [natToDigits_trim]
    have hsuf : ¬ ((natToDigits n).reverse.take 2 = ['0', '.']) := by
      intro h
      have hdot : '.' ∈ (natToDigits n).reverse.take 2 := by
        rw [h]
        simp
      have : '.' ∈ natToDigits n :=
        List.mem_reverse.mp (List.mem_of_mem_take hdot)
      exact (not_special_of_digit (natToDigits_all_digits n '.' this)).2.2.2.1 rfl
    rw [if_neg hsuf]
  · unfold clean_serial_number_rec
    rw [if_neg (by
      intro h
      rcases List.append_eq_nil.mp h with ⟨h1, _⟩
      exact natToDigits_ne_nil n h1)]
    have hdot : (natToDigits n ++ ['.', '0']).contains '.' = true := by
      apply contains_of_mem
      simp
    rw [hdot]
    simp only [if_true]
    rw [pyFloatParse_dotZero]
    have hd : (((n : Nat) : Rat)).den = 1 := Rat.den_natCast n
    have hnum : (((n : Nat) : Rat)).num = (n : Int) := Rat.num_natCast n
    simp only [hd, hnum, if_pos]
    unfold intToChars
    rw [if_neg (Int.not_lt.mpr (Int.natCast_nonneg n))]
    rw [Int.natAbs_ofNat]
  · unfold clean_serial_number_repair
    rw [if_neg (by
      intro h
      rcases List.append_eq_nil.mp h with ⟨h1, _⟩
      exact natToDigits_ne_nil n h1)]
    simp only [dotZero_trim]
    have hrev : (natToDigits n ++ ['.', '0']).reverse.take 2 = ['0', '.'] := by
      rw [List.reverse_append]
      rfl
    rw [if_pos hrev]
    have hlen : (natToDigits n ++ ['.', '0']).length
        = (natToDigits n).length + 2 := by
      rw [List.length_append]
      rfl
    rw [hlen]
    have : (natToDigits n).length + 2 - 2 = (natToDigits n).length := by omega
    rw [this]
    have := List.take_left (natToDigits n) (['.', '0'] : List Char)
    exact this

theorem C10_normalizers_agree_on_canonical_witness :
    clean_serial_number_rec (natToDigits 11153) = natToDigits 11153 ∧
    clean_serial_number_repair (natToDigits 11153) = natToDigits 11153 ∧
    clean_serial_number_rec (natToDigits 11153 ++ ['.', '0'])
      = natToDigits 11153 ∧
    clean_serial_number_repair (natToDigits 11153 ++ ['.', '0'])
      = natToDigits 11153 :=
  C10_normalizers_agree_on_canonical 11153 (by norm_num)

/-! ## The coordinate parser (dep_form_JSON.py:2778-2831) -/

/-- The `[NSEW]` character class with `re.IGNORECASE`. -/
def isHemisphereChar (c : Char) : Bool :=
  c = 'N' ∨ c = 'S' ∨ c = 'E' ∨ c = 'W' ∨
    c = 'n' ∨ c = 's' ∨ c = 'e' ∨ c = 'w'

/-- `direction.upper() in ['S', 'W']`. -/
def isNegativeHemisphere (c : Char) : Bool :=
  c = 'S' ∨ c = 'W' ∨ c = 's' ∨ c = 'w'

/-- `degrees + minutes / 60` of the source, assembled as a single
reduced fraction from the numerators and denominators of the two
exact float values; `coordCombine_eq` certifies that this equals the
source's formula. -/
def coordCombine (degrees minutes : Rat) : Rat :=
  mkRat (degrees.num * ((minutes.den : Int) * 60) +
    minutes.num * (degrees.den : Int)) (degrees.den * (minutes.den * 60))

theorem coordCombine_eq (d m : Rat) : coordCombine d m = d + m / 60 := by
  unfold coordCombine
  rw [Rat.mkRat_eq_div]
  have hdpos : (0 : Rat) < ((d.den : Nat) : Rat) := by
    exact_mod_cast Nat.pos_of_ne_zero d.den_nz
  have hmpos : (0 : Rat) < ((m.den : Nat) : Rat) := by
    exact_mod_cast Nat.pos_of_ne_zero m.den_nz
  have hne0 : (((d.den * (m.den * 60) : Nat)) : Rat) ≠ 0 := by
    push_cast
    positivity
  rw [div_eq_iff hne0]
  have hd2 : ((d.num : Int) : Rat) = d * ((d.den : Nat) : Rat) := by
    have h := Rat.num_div_den d
    rw [div_eq_iff (ne_of_gt hdpos)] at h
    exact h
  have hm2 : ((m.num : Int) : Rat) = m * ((m.den : Nat) : Rat) := by
    have h := Rat.num_div_den m
    rw [div_eq_iff (ne_of_gt hmpos)] at h
    exact h
  push_cast
  push_cast at hd2 hm2
  field_simp
  rw [hd2, hm2]
  ring

/-- `parse_coordinate` (dep_form_JSON.py:2778-2807): strip the input,
try plain `float()` first, then the pattern
`^(\d+)\s+(\d+\.?\d*)\s*([NSEW])$` (case-insensitive): a digit run,
mandatory whitespace, decimal minutes (digits with an optional point
and fraction), optional whitespace and a single hemisphere letter
ending the string; the result is `degrees + minutes / 60`, negated
for a southern or western hemisphere letter.  `none` models the
`ValueError` raised on any other shape. -/
def parse_coordinate (coord : List Char) : Option Rat :=
  let s := trimChars coord
  match pyFloatParse s with
  | some q => some q
  | none =>
    let g1 := s.takeWhile isDigitChar
    let r1 := s.dropWhile isDigitChar
    if g1 = [] then none
    else if r1.takeWhile Char.isWhitespace = [] then none
    else
      let r2 := r1.dropWhile Char.isWhitespace
      let d1 := r2.takeWhile isDigitChar
      if d1 = [] then none
      else
        let r3 := r2.dropWhile isDigitChar
        let g2 := match r3 with
          | '.' :: rest => d1 ++ '.' :: rest.takeWhile isDigitChar
          | _ => d1
        let r4 := match r3 with
          | '.' :: rest => rest.dropWhile isDigitChar
          | _ => r3
        match r4.dropWhile Char.isWhitespace with
        | [dir] =>
          if isHemisphereChar dir then
            match pyFloatParse g1, pyFloatParse g2 with
            | some degrees, some minutes =>
                if isNegativeHemisphere dir then
                  some (-(coordCombine degrees minutes))
                else some (coordCombine degrees minutes)
            | _, _ => none
          else none
        | _ => none

/-- The latitude validation gate of the submit handler
(dep_form_JSON.py:2809-2822): parse, then require the final value in
`[-90, 90]`; a parse failure or an out-of-range value yields the
error path (`lat_valid = False`, no value used). -/
def checkLatitude (s : List Char) : Option Rat :=
  match parse_coordinate s with
  | none => none
  | some lat => if -90 ≤ lat ∧ lat ≤ 90 then some lat else none

/-- The longitude validation gate (dep_form_JSON.py:2823-2831):
parse, then require the final value in `[-180, 180]`. -/
def checkLongitude (s : List Char) : Option Rat :=
  match parse_coordinate s with
  | none => none
  | some lon => if -180 ≤ lon ∧ lon ≤ 180 then some lon else none

/-- Claim C9: the coordinate parser accepts a bare decimal-degree
number or the `<degrees> <decimal-minutes> <hemisphere>` form with
S/W negating (`"37 46.5 N"` gives `37.775`, `"122 25.3 W"` gives
`-122.42166... = -(73453/600)`), and the validation gate never lets a
value through that is out of range (`[-90, 90]` for latitude,
`[-180, 180]` for longitude) or unparseable: those inputs take the
error path instead of producing a value. -/
theorem C9_coordinate_parsing_and_range_gate :
    (∀ (s : List Char) (v : Rat), checkLatitude s = some v →
      -90 ≤ v ∧ v ≤ 90) ∧
    (∀ (s : List Char) (v : Rat), checkLongitude s = some v →
      -180 ≤ v ∧ v ≤ 180) ∧
    parse_coordinate ("37 46.5 N".toList) = some (37.775 : Rat) ∧
    parse_coordinate ("122 25.3 W".toList)
      = some (-(73453 / 600) : Rat) ∧
    checkLatitude ("95.0".toList) = none ∧
    checkLatitude ("not a coordinate".toList) = none ∧
    checkLongitude ("181.0".toList) = none := by
  refine ⟨?_, ?_, ?_, ?_, ?_, ?_, ?_⟩
  · intro s v h
    unfold checkLatitude at h
    cases hp : parse_coordinate s with
    | none => rw [hp] at h; exact absurd h (by simp)
    | some lat =>
      rw [hp] at h
      change (if -90 ≤ lat ∧ lat ≤ 90 then some lat else none) = some v at h
      by_cases hr : -90 ≤ lat ∧ lat ≤ 90
      · rw [if_pos hr] at h
        cases h
        exact hr
      · rw [if_neg hr] at h
        exact absurd h (by simp)
  · intro s v h
    unfold checkLongitude at h
    cases hp : parse_coordinate s with
    | none => rw [hp] at h; exact absurd h (by simp)
    | some lon =>
      rw [hp] at h
      change (if -180 ≤ lon ∧ lon ≤ 180 then some lon else none) = some v at h
      by_cases hr : -180 ≤ lon ∧ lon ≤ 180
      · rw [if_pos hr] at h
        cases h
        exact hr
      · rw [if_neg hr] at h
        exact absurd h (by simp)
  · have h1 : parse_coordinate ("37 46.5 N".toList)
        = some (mkRat 37775 1000) := by decide
    rw [h1]
    congr 1
    rw [Rat.mkRat_eq_div]
    norm_num
  · have h1 : parse_coordinate ("122 25.3 W".toList)
        = some (mkRat (-73453) 600) := by decide
    rw [h1]
    congr 1
    rw [Rat.mkRat_eq_div]
    norm_num
  · decide
  · decide
  · decide

theorem C9_coordinate_parsing_and_range_gate_witness :
    -90 ≤ (37.775 : Rat) ∧ (37.775 : Rat) ≤ 90 :=
  C9_coordinate_parsing_and_range_gate.1 ("37 46.5 N".toList) (37.775 : Rat)
    (by
      have h1 : checkLatitude ("37 46.5 N".toList)
          = some (mkRat 37775 1000) := by decide
      rw [h1]
      congr 1
      rw [Rat.mkRat_eq_div]
      norm_num)

/-! ## Equipment sub-document builders (repair_form_JSON.py:1673-1721) -/

/-- A `lost_equipment` entry: `{'sn': ..., 'lost': ...}` where the
`lost` field is JSON null when the condition input was falsy. -/
structure EquipmentEntry where
  sn : String
  lost : Option String
deriving DecidableEq, Repr

/-- A `replacement_equipment` entry: `{'sn': ...}`. -/
structure ReplacementEntry where
  sn : String
deriving DecidableEq, Repr

/-- The ten equipment kinds, in the order the source tests them. -/
def equipKinds : List String :=
  ["tube", "ptt", "atrh", "sst", "wind", "rain", "swrad", "lwrad",
   "baro", "seacat"]

/-- `tube_condition.strip() if tube_condition else None`. -/
def lostVal : Option String → Option String
  | none => none
  | some t => if t = "" then none else some (pyStrip t)

/-- The `lost_equipment` dict builder: for each kind, the entry is
added iff the kind's old serial number passes
`if <kind>_old_sn and <kind>_old_sn.strip():`; the entry holds the
stripped serial number and the (possibly null) condition.  `vals`
maps a kind to its `(old_sn, condition)` raw inputs. -/
def build_lost_equipment (vals : String → Option String × Option String) :
    List (String × EquipmentEntry) :=
  equipKinds.filterMap (fun k =>
    match vals k with
    | (some s, cond) =>
        if s ≠ "" ∧ pyStrip s ≠ "" then
          some (k, ⟨pyStrip s, lostVal cond⟩)
        else none
    | (none, _) => none)

/-- The `replacement_equipment` dict builder: an entry per kind iff
the new serial number passes the same truthy-and-strip test. -/
def build_replacement_equipment (vals : String → Option String) :
    List (String × ReplacementEntry) :=
  equipKinds.filterMap (fun k =>
    match vals k with
    | some s =>
        if s ≠ "" ∧ pyStrip s ≠ "" then some (k, ⟨pyStrip s⟩) else none
    | none => none)

/-- The claim's end-to-end scenario inputs: `tube_old_sn = "12345"`,
`TubeLost = None`, all other kinds absent. -/
def c8LostVals : String → Option String × Option String := fun k =>
  if k = "tube" then (some "12345", none) else (none, none)

/-- `NewTubeSN = "67890"`, all other kinds absent. -/
def c8ReplVals : String → Option String := fun k =>
  if k = "tube" then some "67890" else none

/-- Inputs where the tube condition is present but the serial number
is absent. -/
def c8CondOnlyVals : String → Option String × Option String := fun k =>
  if k = "tube" then (none, some "lost at sea") else (none, none)

/-- Counterexample to claim C8 as stated: with the tube serial number
absent and the tube condition (a constituent raw field of the entry)
present, the claim requires a `tube` entry to exist; the builder keys
solely on the serial number, so the map comes out empty. -/
theorem C8_counterexample_condition_only_gives_no_entry :
    build_lost_equipment c8CondOnlyVals = [] := by decide

/-- Claim C8 (amended): an equipment-kind entry exists in the
`lost_equipment` (resp. `replacement_equipment`) map iff the kind's
serial-number field is present (non-empty and non-blank after
stripping) — the condition field alone does not create an entry; the
entry carries the stripped serial number and, for `lost_equipment`,
the condition or null.  The claim's concrete scenario holds:
`tube_old_sn="12345"`, `TubeLost=None`, `NewTubeSN="67890"` yields
`lost_equipment = {"tube": {"sn": "12345", "lost": null}}` and
`replacement_equipment = {"tube": {"sn": "67890"}}`. -/
theorem C8_equipment_entry_iff_sn_present :
    (∀ (vals : String → Option String × Option String) (k : String)
        (e : EquipmentEntry),
      (k, e) ∈ build_lost_equipment vals ↔
        (k ∈ equipKinds ∧ ∃ s, (vals k).1 = some s ∧ s ≠ "" ∧
          pyStrip s ≠ "" ∧ e = ⟨pyStrip s, lostVal (vals k).2⟩)) ∧
    (∀ (vals : String → Option String) (k : String) (e : ReplacementEntry),
      (k, e) ∈ build_replacement_equipment vals ↔
        (k ∈ equipKinds ∧ ∃ s, vals k = some s ∧ s ≠ "" ∧
          pyStrip s ≠ "" ∧ e = ⟨pyStrip s⟩)) ∧
    build_lost_equipment c8LostVals = [("tube", ⟨"12345", none⟩)] ∧
    build_replacement_equipment c8ReplVals = [("tube", ⟨"67890"⟩)] := by
  refine ⟨?_, ?_, ?_, ?_⟩
  · intro vals k e
    constructor
    · intro hm
      rcases List.mem_filterMap.mp hm with ⟨a, ha, hf⟩
      rcases hva : vals a with ⟨o, c⟩
      cases o with
      | none => rw [hva] at hf; simp at hf
      | some s =>
        rw [hva] at hf
        by_cases hcond : s ≠ "" ∧ pyStrip s ≠ ""
        · simp only [if_pos hcond] at hf
          have h2 : a = k ∧ (⟨pyStrip s, lostVal c⟩ : EquipmentEntry) = e := by
            simpa using hf
          rcases h2 with ⟨hak, hae⟩
          subst hak
          refine ⟨ha, s, by rw [hva], hcond.1, hcond.2, ?_⟩
          rw [hva]
          exact hae.symm
        · change (if s ≠ "" ∧ pyStrip s ≠ "" then
            some (a, (⟨pyStrip s, lostVal c⟩ : EquipmentEntry)) else none)
              = some (k, e) at hf
          rw [if_neg hcond] at hf
          exact absurd hf (by simp)
    · rintro ⟨hk, s, hvs, h1, h2, he⟩
      apply List.mem_filterMap.mpr
      refine ⟨k, hk, ?_⟩
      rcases hva : vals k with ⟨o, c⟩
      rw [hva] at hvs he
      simp only at hvs he
      subst hvs
      show (if s ≠ "" ∧ pyStrip s ≠ "" then
        some (k, (⟨pyStrip s, lostVal c⟩ : EquipmentEntry)) else none) = some (k, e)
      rw [if_pos (show s ≠ "" ∧ pyStrip s ≠ "" from ⟨h1, h2⟩), he]
  · intro vals k e
    constructor
    · intro hm
      rcases List.mem_filterMap.mp hm with ⟨a, ha, hf⟩
      cases hva : vals a with
      | none => rw [hva] at hf; simp at hf
      | some s =>
        rw [hva] at hf
        by_cases hcond : s ≠ "" ∧ pyStrip s ≠ ""
        · simp only [if_pos hcond] at hf
          have h2 : a = k ∧ (⟨pyStrip s⟩ : ReplacementEntry) = e := by
            simpa using hf
          rcases h2 with ⟨hak, hae⟩
          subst hak
          exact ⟨ha, s, hva, hcond.1, hcond.2, hae.symm⟩
        · change (if s ≠ "" ∧ pyStrip s ≠ "" then
            some (a, (⟨pyStrip s⟩ : ReplacementEntry)) else none)
              = some (k, e) at hf
          rw [if_neg hcond] at hf
          exact absurd hf (by simp)
    · rintro ⟨hk, s, hvs, h1, h2, he⟩
      apply List.mem_filterMap.mpr
      refine ⟨k, hk, ?_⟩
      rw [hvs]
      show (if s ≠ "" ∧ pyStrip s ≠ "" then
        some (k, (⟨pyStrip s⟩ : ReplacementEntry)) else none) = some (k, e)
      rw [if_pos (show s ≠ "" ∧ pyStrip s ≠ "" from ⟨h1, h2⟩), he]
  · decide
  · decide

theorem C8_equipment_entry_iff_sn_present_witness :
    ("tube", (⟨"12345", none⟩ : EquipmentEntry)) ∈
      build_lost_equipment c8LostVals :=
  (C8_equipment_entry_iff_sn_present.1 c8LostVals "tube"
      ⟨"12345", none⟩).mpr
    ⟨by decide, "12345", by decide, by decide, by decide, by decide⟩

/-! ## The schema migrator (repair_form_JSON.py:46-317) -/

/-- Python `str(value)` where it feeds the migrated JSON text.  The
float rendering is a stand-in for `repr(float)`; the rendered text is
only ever stored opaquely inside the migrated JSON column and no
claim depends on its exact spelling. -/
def pyStr : PyVal → String
  | .vstr s => s
  | .vint n => (intToChars n).asString
  | .vfloat q => (intToChars q.num).asString ++
      (if q.den = 1 then ".0" else "/" ++ (natToDigits q.den).asString)
  | .pynan => "nan"
  | .pynone => "None"
  | .vbool b => if b then "True" else "False"

/-- `float(value)` applied to a cell value inside
`try: ... except: pass`: numbers pass through, strings go through the
decimal parser, `None` never reaches here (guarded by `IS NOT NULL`),
booleans coerce. -/
def pyFloatOfVal : PyVal → Option PyVal
  | .vint n => some (.vfloat n)
  | .vfloat q => some (.vfloat q)
  | .pynan => some .pynan
  | .vbool b => some (.vfloat (if b then 1 else 0))
  | .vstr s => (pyFloatParse s.toList).map PyVal.vfloat
  | .pynone => none

/-- A minimal `json.dumps` for the flat migrated dicts. -/
def jsonStrVal : PyVal → String
  | .vstr s => "\"" ++ s ++ "\""
  | .vint n => (intToChars n).asString
  | .vfloat q => pyStr (.vfloat q)
  | .pynan => "NaN"
  | .pynone => "null"
  | .vbool b => if b then "true" else "false"

/-- A minimal `json.dumps` for the flat migrated dicts. -/
def jsonDumps (d : List (String × PyVal)) : String :=
  "\x7b" ++
    String.intercalate ", "
      (d.map (fun p => "\"" ++ p.1 ++ "\": " ++ jsonStrVal p.2)) ++ "\x7d"

/-- `met_ship_data['time']` fixup: `HH:MM` gets a `:00` suffix. -/
def fixTime (ts : String) : String :=
  if ts.length = 5 then ts ++ ":00" else ts

/-- `if rec[i]: d[key] = f(str(rec[i]))` — a truthy-guarded string
field of the migrated dict. -/
def addStrField (key : String) (f : String → String) (v? : Option PyVal)
    (d : List (String × PyVal)) : List (String × PyVal) :=
  match v? with
  | some v => if pyTruthy v then dictSet d key (.vstr (f (pyStr v))) else d
  | none => d

/-- `if rec[i] is not None: try: d[key] = float(rec[i]) except: pass`
— a float field of the migrated dict. -/
def addFloatField (key : String) (v? : Option PyVal)
    (d : List (String × PyVal)) : List (String × PyVal) :=
  match v? with
  | some v =>
      match pyFloatOfVal v with
      | some fv => dictSet d key fv
      | none => d
  | none => d

/-- The eight deprecated per-column met-observation columns for a
prefix (`ship` or `buoy`). -/
def metCols (pre : String) : List String :=
  [pre ++ "_date", pre ++ "_time", pre ++ "_wind_dir", pre ++ "_wind_spd",
   pre ++ "_air_temp", pre ++ "_sst", pre ++ "_ssc", pre ++ "_rh"]

/-- The dict assembled from one selected row by the met-observation
migration (repair_form_JSON.py:195-240 for `ship`, 270-300 for
`buoy`): date/time as guarded strings, the six numeric fields as
guarded floats. -/
def buildMetDict (pre : String) (r : Row) : List (String × PyVal) :=
  addFloatField "rh" (r.get (pre ++ "_rh"))
    (addFloatField "ssc" (r.get (pre ++ "_ssc"))
      (addFloatField "sst" (r.get (pre ++ "_sst"))
        (addFloatField "air_temp" (r.get (pre ++ "_air_temp"))
          (addFloatField "wind_spd" (r.get (pre ++ "_wind_spd"))
            (addFloatField "wind_dir" (r.get (pre ++ "_wind_dir"))
              (addStrField "time" fixTime (r.get (pre ++ "_time"))
                (addStrField "date" (fun s => s ++ "T00:00:00")
                  (r.get (pre ++ "_date")) [])))))))

/-- One gap-filling column migration
(`UPDATE t SET new = old WHERE new IS NULL AND old IS NOT NULL`),
guarded by both columns existing (repair_form_JSON.py:157-177). -/
def gapFill (oldc newc : String) (t : Table) : Table :=
  if t.cols.contains oldc && t.cols.contains newc then
    { t with rows := t.rows.map (fun r =>
        match r.get newc, r.get oldc with
        | none, some v => r.set newc v
        | _, _ => r) }
  else t

/-- The met-migration row selection:
`WHERE <target> IS NULL AND (<old1> IS NOT NULL OR ...)`. -/
def metSel (target : String) (oldCols : List String) (r : Row) : Bool :=
  (r.get target).isNone && oldCols.any (fun c => (r.get c).isSome)

/-- `UPDATE t SET <c> = <v> WHERE id = <i>`. -/
def writeAll (t : Table) (i : Nat) (c : String) (v : PyVal) : Table :=
  { t with rows := t.rows.map (fun r => if r.id == i then r.set c v else r) }

/-- The per-record update loop of the met migration: for each fetched
record whose dict is non-empty, write the serialized dict to the
target column of the record's id (`if met_ship_data: UPDATE ...`). -/
def applyMetRecs (target : String) (build : Row → List (String × PyVal))
    (recs : List Row) (t : Table) : Table :=
  recs.foldl (fun acc rec =>
    if build rec ≠ [] then
      writeAll acc rec.id target (.vstr (jsonDumps (build rec)))
    else acc) t

/-- One met-observation migration (repair_form_JSON.py:186-245 /
261-305): guarded by all old columns and the JSON target column
existing, select the rows still lacking the target, then run the
update loop over the fetched records. -/
def metMigrate (target : String) (oldCols : List String)
    (build : Row → List (String × PyVal)) (t : Table) : Table :=
  if oldCols.all (fun c => t.cols.contains c) && t.cols.contains target then
    applyMetRecs target build (t.rows.filter (metSel target oldCols)) t
  else t

/-- `migrate_old_columns` (repair_form_JSON.py:147-317): the two
gap-filling pair migrations followed by the ship and buoy
met-observation migrations, in source order. -/
def migrate_old_columns (t : Table) : Table :=
  metMigrate "met_buoy" (metCols "buoy") (buildMetDict "buoy")
    (metMigrate "met_ship" (metCols "ship") (buildMetDict "ship")
      (gapFill "buoy_condition" "buoy_details"
        (gapFill "fishing_vandalism" "repair_fishing_vandalism" t)))

/-- The sensor-exchange columns added by `ensure_columns_exist`. -/
def sensorColumns : List String :=
  ["tube_old_sn", "tube_new_sn", "tube_condition", "tube_details",
   "ptt_old_sn", "ptt_new_sn", "ptt_condition", "ptt_details",
   "atrh_old_sn", "atrh_new_sn", "atrh_condition", "atrh_details",
   "sst_old_sn", "sst_new_sn", "sst_condition", "sst_details",
   "wind_old_sn", "wind_new_sn", "wind_condition", "wind_details",
   "rain_old_sn", "rain_new_sn", "rain_condition", "rain_details",
   "swrad_old_sn", "swrad_new_sn", "swrad_condition", "swrad_details",
   "lwrad_old_sn", "lwrad_new_sn", "lwrad_condition", "lwrad_details",
   "baro_old_sn", "baro_new_sn", "baro_condition", "baro_details",
   "seacat_old_sn", "seacat_new_sn", "seacat_condition", "seacat_details"]

/-- The tube-exchange columns added by `ensure_columns_exist`. -/
def tubeExchangeColumns : List String :=
  ["tube_time", "gmt", "drift", "bat_logic", "bat_transmit", "file_name"]

/-- All columns `ensure_columns_exist` adds when missing
(repair_form_JSON.py:46-144), in source order. -/
def ensureTargetCols : List String :=
  ["buoy_details", "repair_fishing_vandalism"] ++ sensorColumns ++
    tubeExchangeColumns ++ ["met_ship", "met_buoy"]

/-- `ensure_columns_exist`: snapshot the existing columns once, then
`ALTER TABLE ADD COLUMN` each missing one (new columns start out all
NULL, so the rows need no change). -/
def ensure_columns_exist (t : Table) : Table :=
  { t with cols := t.cols ++
      ensureTargetCols.filter (fun c => ¬ t.cols.contains c) }

/-- The startup migration sequence (repair_form_JSON.py:528-531):
`ensure_columns_exist()` then `migrate_old_columns()`. -/
def run_migrations (t : Table) : Table :=
  migrate_old_columns (ensure_columns_exist t)

theorem Row.get_ne_pynone {r : Row} {c : String} {v : PyVal}
    (h : r.get c = some v) : v ≠ .pynone := by
  unfold Row.get at h
  cases hf : r.cells.find? (fun p => p.1 == c) with
  | none => rw [hf] at h; exact absurd h (by simp)
  | some p =>
    rw [hf] at h
    rcases p with ⟨c0, v0⟩
    cases v0 with
    | pynone => exact absurd h (by simp)
    | pynan => cases h; simp
    | vint n => cases h; simp
    | vfloat q => cases h; simp
    | vstr s => cases h; simp
    | vbool b => cases h; simp

theorem setCells_setCells (l : List (String × PyVal)) (c : String)
    (v1 v2 : PyVal) : setCells (setCells l c v1) c v2 = setCells l c v2 := by
  induction l with
  | nil => simp [setCells]
  | cons a rest ih =>
    rcases a with ⟨a1, a2⟩
    by_cases ha : a1 == c
    · have hcc : (c == c) = true := by simp
      simp [setCells, ha, hcc]
    · simp [setCells, ha, ih]

theorem Row.set_set_same (r : Row) (c : String) (v1 v2 : PyVal) :
    (r.set c v1).set c v2 = r.set c v2 := by
  unfold Row.set
  simp only
  rw [setCells_setCells]

theorem listContains_of_mem {α : Type} [BEq α] [LawfulBEq α] {l : List α}
    {c : α} (h : c ∈ l) : l.contains c = true := by
  have : l.elem c = true := List.elem_iff.mpr h
  exact this

theorem mem_of_listContains {α : Type} [BEq α] [LawfulBEq α] {l : List α}
    {c : α} (h : l.contains c = true) : c ∈ l :=
  List.elem_iff.mp h

theorem any_congr_of {α : Type} {l : List α} {f g : α → Bool}
    (h : ∀ a ∈ l, f a = g a) : l.any f = l.any g := by
  induction l with
  | nil => rfl
  | cons a rest ih =>
    simp only [List.any_cons]
    rw [h a (List.mem_cons_self _ _),
      ih (fun x hx => h x (List.mem_cons_of_mem _ hx))]

theorem gapFill_cols (oldc newc : String) (t : Table) :
    (gapFill oldc newc t).cols = t.cols := by
  unfold gapFill
  by_cases h : t.cols.contains oldc && t.cols.contains newc
  · rw [if_pos h]
  · rw [if_neg h]

theorem writeAll_cols (t : Table) (i : Nat) (c : String) (v : PyVal) :
    (writeAll t i c v).cols = t.cols := rfl

theorem applyMetRecs_cols (target : String)
    (build : Row → List (String × PyVal)) (recs : List Row) (t : Table) :
    (applyMetRecs target build recs t).cols = t.cols := by
  induction recs generalizing t with
  | nil => rfl
  | cons rec rest ih =>
    unfold applyMetRecs
    simp only [List.foldl_cons]
    by_cases hb : build rec ≠ []
    · rw [if_pos hb]
      have := ih (writeAll t rec.id target (.vstr (jsonDumps (build rec))))
      unfold applyMetRecs at this
      rw [this, writeAll_cols]
    · rw [if_neg hb]
      have := ih t
      unfold applyMetRecs at this
      rw [this]

theorem metMigrate_cols (target : String) (oldCols : List String)
    (build : Row → List (String × PyVal)) (t : Table) :
    (metMigrate target oldCols build t).cols = t.cols := by
  unfold metMigrate
  by_cases h : oldCols.all (fun c => t.cols.contains c) && t.cols.contains target
  · rw [if_pos h, applyMetRecs_cols]
  · rw [if_neg h]

theorem migrate_cols (t : Table) :
    (migrate_old_columns t).cols = t.cols := by
  unfold migrate_old_columns
  rw [metMigrate_cols, metMigrate_cols, gapFill_cols, gapFill_cols]

/-- The per-row guarantee a gap-filling migration establishes: the
current column is filled, or the deprecated column is empty. -/
def gapInv (oldc newc : String) (r : Row) : Prop :=
  r.get newc ≠ none ∨ r.get oldc = none

theorem gapFill_rows_shape {oldc newc : String} {t : Table} {r' : Row}
    (h : r' ∈ (gapFill oldc newc t).rows) :
    ∃ r ∈ t.rows, r' = r ∨ ∃ v, r' = r.set newc v := by
  unfold gapFill at h
  by_cases hg : t.cols.contains oldc && t.cols.contains newc
  · rw [if_pos hg] at h
    simp only at h
    rcases List.mem_map.mp h with ⟨r, hr, hf⟩
    refine ⟨r, hr, ?_⟩
    rcases hn : r.get newc with _ | v1
    · rcases ho : r.get oldc with _ | v2
      · simp only [hn, ho] at hf
        exact Or.inl hf.symm
      · simp only [hn, ho] at hf
        exact Or.inr ⟨v2, hf.symm⟩
    · simp only [hn] at hf
      exact Or.inl hf.symm
  · rw [if_neg hg] at h
    exact ⟨r', h, Or.inl rfl⟩

theorem gapFill_establishes {oldc newc : String} {t : Table}
    (hg : (t.cols.contains oldc && t.cols.contains newc) = true) :
    ∀ r' ∈ (gapFill oldc newc t).rows, gapInv oldc newc r' := by
  intro r' h
  unfold gapFill at h
  rw [if_pos hg] at h
  simp only at h
  rcases List.mem_map.mp h with ⟨r, hr, hf⟩
  rcases hn : r.get newc with _ | v1
  · rcases ho : r.get oldc with _ | v2
    · simp only [hn, ho] at hf
      subst hf
      exact Or.inr ho
    · simp only [hn, ho] at hf
      subst hf
      left
      rw [Row.get_set_self (Row.get_ne_pynone ho)]
      simp
  · simp only [hn] at hf
    subst hf
    left
    rw [hn]
    simp

theorem gapFill_id_of_inv {oldc newc : String} {t : Table}
    (hall : ∀ r ∈ t.rows, gapInv oldc newc r) :
    gapFill oldc newc t = t := by
  unfold gapFill
  by_cases hg : t.cols.contains oldc && t.cols.contains newc
  · rw [if_pos hg]
    have hmap : t.rows.map (fun r =>
        match r.get newc, r.get oldc with
        | none, some v => r.set newc v
        | _, _ => r) = t.rows := by
      apply map_eq_self_of
      intro r hr
      rcases hn : r.get newc with _ | v1
      · rcases ho : r.get oldc with _ | v2
        · simp only [hn, ho]
        · rcases hall r hr with hinv | hinv
          · exact absurd hn hinv
          · rw [ho] at hinv
            exact absurd hinv (by simp)
      · simp only [hn]
    rw [hmap]
  · rw [if_neg hg]

/-- The per-row guarantee a met migration establishes: a row still
selectable after the run builds an empty dict (so re-running it never
writes). -/
def metInv (target : String) (oldCols : List String)
    (build : Row → List (String × PyVal)) (r : Row) : Prop :=
  metSel target oldCols r = true → build r = []

theorem writeAll_rows_shape {t : Table} {i : Nat} {c : String} {v : PyVal}
    {r' : Row} (h : r' ∈ (writeAll t i c v).rows) :
    ∃ r ∈ t.rows, r' = r ∨ r' = r.set c v := by
  unfold writeAll at h
  simp only at h
  rcases List.mem_map.mp h with ⟨r, hr, hf⟩
  refine ⟨r, hr, ?_⟩
  by_cases hid : (r.id == i) = true
  · rw [if_pos hid] at hf
    exact Or.inr hf.symm
  · rw [if_neg hid] at hf
    exact Or.inl hf.symm

theorem applyMetRecs_rows_shape {target : String}
    {build : Row → List (String × PyVal)} {recs : List Row} {t : Table}
    {r' : Row} (h : r' ∈ (applyMetRecs target build recs t).rows) :
    ∃ r ∈ t.rows, r' = r ∨ ∃ v, r' = r.set target v := by
  induction recs generalizing t with
  | nil => exact ⟨r', h, Or.inl rfl⟩
  | cons rec rest ih =>
    unfold applyMetRecs at h
    simp only [List.foldl_cons] at h
    by_cases hb : build rec ≠ []
    · rw [if_pos hb] at h
      have h' : r' ∈ (applyMetRecs target build rest
          (writeAll t rec.id target (.vstr (jsonDumps (build rec))))).rows := by
        unfold applyMetRecs
        exact h
      rcases ih h' with ⟨r1, hr1, hc⟩
      rcases writeAll_rows_shape hr1 with ⟨r, hr, hc2⟩
      refine ⟨r, hr, ?_⟩
      rcases hc with rfl | ⟨v, rfl⟩
      · rcases hc2 with rfl | rfl
        · exact Or.inl rfl
        · exact Or.inr ⟨_, rfl⟩
      · rcases hc2 with rfl | rfl
        · exact Or.inr ⟨v, rfl⟩
        · exact Or.inr ⟨v, by rw [Row.set_set_same]⟩
    · rw [if_neg hb] at h
      have h' : r' ∈ (applyMetRecs target build rest t).rows := by
        unfold applyMetRecs
        exact h
      exact ih h'

theorem metMigrate_rows_shape {target : String} {oldCols : List String}
    {build : Row → List (String × PyVal)} {t : Table} {r' : Row}
    (h : r' ∈ (metMigrate target oldCols build t).rows) :
    ∃ r ∈ t.rows, r' = r ∨ ∃ v, r' = r.set target v := by
  unfold metMigrate at h
  by_cases hg : (oldCols.all (fun c => t.cols.contains c)
      && t.cols.contains target) = true
  · rw [if_pos hg] at h
    exact applyMetRecs_rows_shape h
  · rw [if_neg hg] at h
    exact ⟨r', h, Or.inl rfl⟩

theorem writeAll_id_preserved {t : Table} {i : Nat} {c : String} {v : PyVal}
    {r' : Row} (h : r' ∈ (writeAll t i c v).rows) :
    ∃ r ∈ t.rows, r'.id = r.id ∧
      (r' = r ∨ r' = r.set c v) := by
  rcases writeAll_rows_shape h with ⟨r, hr, hc⟩
  refine ⟨r, hr, ?_, hc⟩
  rcases hc with rfl | rfl
  · rfl
  · exact Row.id_set r c v

/-- If a row of the result still lacks the target value, it was not
touched by any executed write of the loop: it equals an original row
of the table, and no fetched record with a non-empty dict shares its
id. -/
theorem applyMetRecs_untouched {target : String}
    {build : Row → List (String × PyVal)} {recs : List Row} {t : Table}
    {r' : Row} (h : r' ∈ (applyMetRecs target build recs t).rows)
    (hn : r'.get target = none) :
    ∃ r ∈ t.rows, r' = r ∧
      ∀ rec ∈ recs, build rec ≠ [] → rec.id ≠ r.id := by
  induction recs generalizing t with
  | nil => exact ⟨r', h, rfl, by simp⟩
  | cons rec rest ih =>
    unfold applyMetRecs at h
    simp only [List.foldl_cons] at h
    by_cases hb : build rec ≠ []
    · rw [if_pos hb] at h
      have h2 : r' ∈ (applyMetRecs target build rest
          (writeAll t rec.id target (.vstr (jsonDumps (build rec))))).rows := by
        unfold applyMetRecs
        exact h
      rcases ih h2 with ⟨r1, hr1, heq, hrest⟩
      subst heq
      have hmem : r' ∈ (writeAll t rec.id target
          (.vstr (jsonDumps (build rec)))).rows := hr1
      unfold writeAll at hmem
      simp only at hmem
      rcases List.mem_map.mp hmem with ⟨r0, hr0, hf0⟩
      by_cases hid : (r0.id == rec.id) = true
      · rw [if_pos hid] at hf0
        rw [← hf0] at hn
        rw [Row.get_set_self (by simp)] at hn
        exact absurd hn (by simp)
      · rw [if_neg hid] at hf0
        subst hf0
        refine ⟨r0, hr0, rfl, ?_⟩
        intro rec2 hrec2 hb2
        rcases List.mem_cons.mp hrec2 with rfl | hrec2
        · intro he
          exact hid (by simp [he])
        · exact hrest rec2 hrec2 hb2
    · rw [if_neg hb] at h
      have h2 : r' ∈ (applyMetRecs target build rest t).rows := by
        unfold applyMetRecs
        exact h
      rcases ih h2 with ⟨r, hr, heq, hrest⟩
      refine ⟨r, hr, heq, ?_⟩
      intro rec2 hrec2 hb2
      rcases List.mem_cons.mp hrec2 with rfl | hrec2
      · exact absurd hb2 hb
      · exact hrest rec2 hrec2 hb2

theorem metMigrate_establishes {target : String} {oldCols : List String}
    {build : Row → List (String × PyVal)} {t : Table}
    (hg : (oldCols.all (fun c => t.cols.contains c)
        && t.cols.contains target) = true) :
    ∀ r' ∈ (metMigrate target oldCols build t).rows,
      metInv target oldCols build r' := by
  intro r' h hsel
  unfold metMigrate at h
  rw [if_pos hg] at h
  have hsel2 := hsel
  unfold metSel at hsel2
  simp only [Bool.and_eq_true] at hsel2
  have hnone : r'.get target = none := Option.isNone_iff_eq_none.mp hsel2.1
  rcases applyMetRecs_untouched h hnone with ⟨r, hrow, heq, hcond⟩
  subst heq
  by_contra hbne
  exact hcond r' (List.mem_filter.mpr ⟨hrow, hsel⟩) hbne rfl

theorem applyMetRecs_id_of_empty {target : String}
    {build : Row → List (String × PyVal)} {recs : List Row} {t : Table}
    (hempty : ∀ rec ∈ recs, build rec = []) :
    applyMetRecs target build recs t = t := by
  induction recs generalizing t with
  | nil => rfl
  | cons rec rest ih =>
    unfold applyMetRecs
    simp only [List.foldl_cons]
    rw [if_neg (by
      simp only [ne_eq, not_not]
      exact hempty rec (List.mem_cons_self _ _))]
    have := ih (t := t) (fun x hx => hempty x (List.mem_cons_of_mem _ hx))
    unfold applyMetRecs at this
    exact this

theorem metMigrate_id_of_inv {target : String} {oldCols : List String}
    {build : Row → List (String × PyVal)} {t : Table}
    (hall : ∀ r ∈ t.rows, metInv target oldCols build r) :
    metMigrate target oldCols build t = t := by
  unfold metMigrate
  by_cases hg : (oldCols.all (fun c => t.cols.contains c)
      && t.cols.contains target) = true
  · rw [if_pos hg]
    apply applyMetRecs_id_of_empty
    intro rec hrec
    rcases List.mem_filter.mp hrec with ⟨hmem, hsel⟩
    exact hall rec hmem hsel
  · rw [if_neg hg]

theorem gapInv_set_ne {oldc newc c : String} {r : Row} {v : PyVal}
    (h1 : c ≠ oldc) (h2 : c ≠ newc) (hinv : gapInv oldc newc r) :
    gapInv oldc newc (r.set c v) := by
  unfold gapInv at hinv ⊢
  rw [Row.get_set_ne h2, Row.get_set_ne h1]
  exact hinv

theorem metSel_set_ne {target : String} {oldCols : List String}
    {c : String} {r : Row} {v : PyVal} (htarget : c ≠ target)
    (hold : c ∉ oldCols) :
    metSel target oldCols (r.set c v) = metSel target oldCols r := by
  unfold metSel
  rw [Row.get_set_ne htarget]
  congr 1
  apply any_congr_of
  intro col hcol
  have hcne : c ≠ col := by
    intro he
    subst he
    exact hold hcol
  rw [Row.get_set_ne hcne]

theorem buildMetDict_set_ne {pre c : String} {r : Row} {v : PyVal}
    (h : ∀ col ∈ metCols pre, c ≠ col) :
    buildMetDict pre (r.set c v) = buildMetDict pre r := by
  unfold buildMetDict
  rw [Row.get_set_ne (h _ (by simp [metCols])),
    Row.get_set_ne (h _ (by simp [metCols])),
    Row.get_set_ne (h _ (by simp [metCols])),
    Row.get_set_ne (h _ (by simp [metCols])),
    Row.get_set_ne (h _ (by simp [metCols])),
    Row.get_set_ne (h _ (by simp [metCols])),
    Row.get_set_ne (h _ (by simp [metCols])),
    Row.get_set_ne (h _ (by simp [metCols]))]

theorem metInv_set_ne {pre target : String} {oldCols : List String}
    {c : String} {r : Row} {v : PyVal} (htarget : c ≠ target)
    (hold : c ∉ oldCols) (hcols : ∀ col ∈ metCols pre, c ≠ col)
    (hinv : metInv target oldCols (buildMetDict pre) r) :
    metInv target oldCols (buildMetDict pre) (r.set c v) := by
  intro hsel
  rw [buildMetDict_set_ne hcols]
  apply hinv
  rw [← metSel_set_ne htarget hold (r := r) (v := v)]
  exact hsel

theorem gapFill_preserve {P : Row → Prop} {oldc newc : String} {t : Table}
    (hstab : ∀ r v, P r → P (r.set newc v))
    (hall : ∀ r ∈ t.rows, P r) :
    ∀ r' ∈ (gapFill oldc newc t).rows, P r' := by
  intro r' h
  rcases gapFill_rows_shape h with ⟨r, hr, hc⟩
  rcases hc with heq | ⟨v, heq⟩
  · rw [heq]
    exact hall r hr
  · rw [heq]
    exact hstab r v (hall r hr)

theorem metMigrate_preserve {P : Row → Prop} {target : String}
    {oldCols : List String} {build : Row → List (String × PyVal)}
    {t : Table} (hstab : ∀ r v, P r → P (r.set target v))
    (hall : ∀ r ∈ t.rows, P r) :
    ∀ r' ∈ (metMigrate target oldCols build t).rows, P r' := by
  intro r' h
  rcases metMigrate_rows_shape h with ⟨r, hr, hc⟩
  rcases hc with heq | ⟨v, heq⟩
  · rw [heq]
    exact hall r hr
  · rw [heq]
    exact hstab r v (hall r hr)

theorem gapFill_second {oldc newc : String} {u base : Table}
    (hcols : u.cols = base.cols)
    (hest : (base.cols.contains oldc && base.cols.contains newc) = true →
      ∀ r ∈ u.rows, gapInv oldc newc r) :
    gapFill oldc newc u = u := by
  by_cases hg : (base.cols.contains oldc && base.cols.contains newc) = true
  · exact gapFill_id_of_inv (hest hg)
  · unfold gapFill
    rw [hcols, if_neg hg]

theorem metMigrate_second {target : String} {oldCols : List String}
    {build : Row → List (String × PyVal)} {u base : Table}
    (hcols : u.cols = base.cols)
    (hest : (oldCols.all (fun c => base.cols.contains c)
        && base.cols.contains target) = true →
      ∀ r ∈ u.rows, metInv target oldCols build r) :
    metMigrate target oldCols build u = u := by
  by_cases hg : (oldCols.all (fun c => base.cols.contains c)
      && base.cols.contains target) = true
  · exact metMigrate_id_of_inv (hest hg)
  · unfold metMigrate
    rw [hcols, if_neg hg]

theorem migrate_old_columns_idem (u : Table) :
    migrate_old_columns (migrate_old_columns u) = migrate_old_columns u := by
  have hcols : (migrate_old_columns u).cols = u.cols := migrate_cols u
  have hA : (u.cols.contains "fishing_vandalism" &&
      u.cols.contains "repair_fishing_vandalism") = true →
      ∀ r ∈ (migrate_old_columns u).rows,
        gapInv "fishing_vandalism" "repair_fishing_vandalism" r := by
    intro hg
    unfold migrate_old_columns
    refine metMigrate_preserve ?_ (metMigrate_preserve ?_
      (gapFill_preserve ?_ (gapFill_establishes hg)))
    · intro r v hr
      exact gapInv_set_ne (by decide) (by decide) hr
    · intro r v hr
      exact gapInv_set_ne (by decide) (by decide) hr
    · intro r v hr
      exact gapInv_set_ne (by decide) (by decide) hr
  have hB : (u.cols.contains "buoy_condition" &&
      u.cols.contains "buoy_details") = true →
      ∀ r ∈ (migrate_old_columns u).rows,
        gapInv "buoy_condition" "buoy_details" r := by
    intro hg
    unfold migrate_old_columns
    refine metMigrate_preserve ?_ (metMigrate_preserve ?_
      (gapFill_establishes ?_))
    · intro r v hr
      exact gapInv_set_ne (by decide) (by decide) hr
    · intro r v hr
      exact gapInv_set_ne (by decide) (by decide) hr
    · rw [gapFill_cols]
      exact hg
  have hC : ((metCols "ship").all (fun c => u.cols.contains c) &&
      u.cols.contains "met_ship") = true →
      ∀ r ∈ (migrate_old_columns u).rows,
        metInv "met_ship" (metCols "ship") (buildMetDict "ship") r := by
    intro hg
    unfold migrate_old_columns
    refine metMigrate_preserve ?_ (metMigrate_establishes ?_)
    · intro r v hr
      exact metInv_set_ne (by decide) (by decide) (by decide) hr
    · rw [gapFill_cols, gapFill_cols]
      exact hg
  have hD : ((metCols "buoy").all (fun c => u.cols.contains c) &&
      u.cols.contains "met_buoy") = true →
      ∀ r ∈ (migrate_old_columns u).rows,
        metInv "met_buoy" (metCols "buoy") (buildMetDict "buoy") r := by
    intro hg
    unfold migrate_old_columns
    apply metMigrate_establishes
    rw [metMigrate_cols, gapFill_cols, gapFill_cols]
    exact hg
  have h1 : gapFill "fishing_vandalism" "repair_fishing_vandalism"
      (migrate_old_columns u) = migrate_old_columns u :=
    gapFill_second hcols hA
  have h2 : gapFill "buoy_condition" "buoy_details"
      (migrate_old_columns u) = migrate_old_columns u :=
    gapFill_second hcols hB
  have h3 : metMigrate "met_ship" (metCols "ship") (buildMetDict "ship")
      (migrate_old_columns u) = migrate_old_columns u :=
    metMigrate_second hcols hC
  have h4 : metMigrate "met_buoy" (metCols "buoy") (buildMetDict "buoy")
      (migrate_old_columns u) = migrate_old_columns u :=
    metMigrate_second hcols hD
  conv_lhs => rw [migrate_old_columns]
  rw [h1, h2, h3, h4]

theorem ensure_cols_superset (t : Table) :
    ∀ c ∈ ensureTargetCols, ((ensure_columns_exist t).cols).contains c = true := by
  intro c hc
  unfold ensure_columns_exist
  simp only
  by_cases hin : t.cols.contains c = true
  · exact listContains_of_mem
      (List.mem_append.mpr (Or.inl (mem_of_listContains hin)))
  · apply listContains_of_mem
    apply List.mem_append.mpr
    right
    refine List.mem_filter.mpr ⟨hc, ?_⟩
    have hnm : c ∉ t.cols := fun hm => hin (listContains_of_mem hm)
    simpa using hnm

theorem ensure_id {t : Table}
    (hall : ∀ c ∈ ensureTargetCols, t.cols.contains c = true) :
    ensure_columns_exist t = t := by
  unfold ensure_columns_exist
  have hfil : ensureTargetCols.filter (fun c => ¬ t.cols.contains c) = [] := by
    apply List.filter_eq_nil_iff.mpr
    intro c hc
    have hm := mem_of_listContains (hall c hc)
    simp [hm]
  rw [hfil, List.append_nil]

/-- Claim C7: the schema migrator is idempotent.  Running the startup
migration sequence (`ensure_columns_exist` then
`migrate_old_columns`) twice on any table state produces contents
identical to running it once: each deprecated-to-current copy fills
only rows where the current column is NULL and the deprecated column
is not, the met-observation migrations only touch rows whose JSON
target is still NULL, and column additions are guarded by an
existence pre-check so a re-run adds nothing.  The bare
`migrate_old_columns` pass is idempotent on its own as well. -/
theorem C7_migration_idempotent :
    ∀ t : Table,
      run_migrations (run_migrations t) = run_migrations t ∧
      migrate_old_columns (migrate_old_columns t) = migrate_old_columns t := by
  intro t
  constructor
  · unfold run_migrations
    have hens2 : ensure_columns_exist
        (migrate_old_columns (ensure_columns_exist t))
        = migrate_old_columns (ensure_columns_exist t) := by
      apply ensure_id
      intro c hc
      rw [migrate_cols]
      exact ensure_cols_superset t c hc
    rw [hens2]
    exact migrate_old_columns_idem (ensure_columns_exist t)
  · exact migrate_old_columns_idem t
